import Mathlib

set_option maxRecDepth 10000

/-!
Shallow embedding of `src/index.py` (a Python 2 + numpy decoder for Nanonis
`.sxm` scan files): locating the header/body boundary in a byte stream,
parsing the semi-structured text header (scalar sections and tab-separated
tables) with numeric coercion, and decoding the binary payload of big-endian
32-bit floats into per-channel forward/backward grids.

Bytes are modelled as `List Nat` (each < 256); the decoded header text as
`String`.  Python exceptions are modelled by the `PyErr` type, fallible code
by `Except PyErr`.  Exact IEEE-754 binary32 decoding is modelled over `ℚ`
(every finite float32 is a dyadic rational), with infinities and NaN as
separate constructors.
-/

/-- Python exception outcomes the decoder can raise. -/
inductive PyErr where
  | unhandledFileError
  | fileHeaderNotFoundError
  | unicodeDecodeError
  | keyError (k : String)
  | indexError
  | attributeError
  | typeError
  | floatConvError (raw : String)
  | intConvError (raw : String)
  | valueError
  deriving DecidableEq, Repr

/-- A Python float / decoded float32 value: finite values are exact rationals
(every finite binary32 value is a dyadic rational); infinities and NaN are
separate constructors. -/
inductive PyF where
  | fin (q : ℚ)
  | posInf
  | negInf
  | nan
  deriving DecidableEq, Repr

/-- A value stored in the parsed-header dictionary: raw scalar string, list of
strings (after `.split()`), float scalar/vector, int vector (numpy arrays), or
a channel-metadata table (column name ↦ column cells, as from `dict(zip(..))`). -/
inductive HVal where
  | scalar (s : String)
  | vec (xs : List String)
  | fscalar (x : PyF)
  | fvec (xs : List PyF)
  | ivec (xs : List Int)
  | table (t : List (String × List String))
  deriving DecidableEq, Repr

/-- Python `dict` with string keys, modelled as an association list with
insert-or-overwrite semantics. -/
abbrev Dict := List (String × HVal)

abbrev Grid := List (List PyF)

/-- The `signals` attribute: channel name ↦ (forward grid, backward grid). -/
abbrev Signals := List (String × (Grid × Grid))

/-- Insert-or-overwrite for Python dict semantics (`d[k] = v`). -/
def dinsert {α : Type} : List (String × α) → String → α → List (String × α)
  | [], k, v => [(k, v)]
  | (k', v') :: rest, k, v =>
      if k' = k then (k, v) :: rest else (k', v') :: dinsert rest k v

/-- Python dict lookup (`d[k]`, as an `Option`). -/
def dlookup {α : Type} : List (String × α) → String → Option α
  | [], _ => none
  | (k', v') :: rest, k => if k' = k then some v' else dlookup rest k

/-- Characters stripped by Python `str.strip()`. -/
def isPyWsC (c : Char) : Bool :=
  c = ' ' || c = '\t' || c = '\n' || c = '\x0d' || c = '\x0b' || c = '\x0c'

/-- Strip a class of characters from both ends of a list. -/
def stripEnds {α : Type} (p : α → Bool) (l : List α) : List α :=
  ((l.dropWhile p).reverse.dropWhile p).reverse

/-- Python `str.strip()` (no argument: whitespace). -/
def pyStrip (s : String) : String := String.mk (stripEnds isPyWsC s.toList)

/-- Python `str.strip(c)` for a single stripped character `c`. -/
def pyStripChar (c : Char) (s : String) : String :=
  String.mk (stripEnds (fun d => d = c) s.toList)

/-- ASCII lower-casing of one character, as Python `str.lower()` does. -/
def lowerChar (c : Char) : Char :=
  if 'A' ≤ c ∧ c ≤ 'Z' then Char.ofNat (c.toNat + 32) else c

/-- Python `str.lower()` (ASCII). -/
def pyLower (s : String) : String := String.mk (s.toList.map lowerChar)

/-- Split a character list at every occurrence of `c`
(Python `str.split(c)` semantics: `"".split(c) = [""]`). -/
def splitChL (c : Char) : List Char → List (List Char)
  | [] => [[]]
  | d :: rest =>
      match splitChL c rest with
      | [] => [[]]
      | g :: gs => if d = c then [] :: g :: gs else (d :: g) :: gs

/-- Python `str.split(sep)` for a one-character separator. -/
def pySplitOn (c : Char) (s : String) : List String :=
  (splitChL c s.toList).map String.mk

/-- Worker for whitespace splitting: accumulates the current word reversed. -/
def splitWsGo : List Char → List Char → List (List Char)
  | [], cur => if cur.isEmpty then [] else [cur.reverse]
  | c :: rest, cur =>
      if isPyWsC c then
        if cur.isEmpty then splitWsGo rest [] else cur.reverse :: splitWsGo rest []
      else splitWsGo rest (c :: cur)

/-- Python `str.split()` (no argument): split on whitespace runs, no empties. -/
def pySplitWs (s : String) : List String :=
  (splitWsGo s.toList []).map String.mk

/-- Python `str.startswith(t)` for a single-character `t`. -/
def startsWithChar (c : Char) (s : String) : Bool :=
  match s.toList with
  | [] => false
  | d :: _ => d = c

def isDigitC (c : Char) : Bool := '0' ≤ c && c ≤ '9'

/-- Numeric value of a digit string (most significant first). -/
def digitsVal (l : List Char) : Nat :=
  l.foldl (fun a c => a * 10 + (c.toNat - 48)) 0

/-- Parse the exponent part after `e`/`E` in a Python float literal. -/
def expPart (l : List Char) : Option Int :=
  match l with
  | '+' :: r => if r ≠ [] ∧ r.all isDigitC then some (digitsVal r) else none
  | '-' :: r => if r ≠ [] ∧ r.all isDigitC then some (-(digitsVal r : Int)) else none
  | _ => if l ≠ [] ∧ l.all isDigitC then some (digitsVal l) else none

/-- Parse the unsigned body of a Python float literal:
`digits [. digits] [e/E exponent]`, requiring at least one digit. -/
def pyFloatCore (l : List Char) : Option ℚ :=
  let intPart := l.takeWhile isDigitC
  let rest1 := l.dropWhile isDigitC
  match rest1 with
  | [] => if intPart.isEmpty then none else some (digitsVal intPart)
  | '.' :: rest2 =>
      let fracPart := rest2.takeWhile isDigitC
      let rest3 := rest2.dropWhile isDigitC
      if intPart.isEmpty ∧ fracPart.isEmpty then none
      else
        let base : ℚ := (digitsVal intPart : ℚ) + (digitsVal fracPart : ℚ) / 10 ^ fracPart.length
        match rest3 with
        | [] => some base
        | e :: rest4 =>
            if e = 'e' ∨ e = 'E' then (expPart rest4).map (fun ex => base * (10 : ℚ) ^ ex)
            else none
  | e :: rest2 =>
      if (e = 'e' ∨ e = 'E') ∧ ¬ intPart.isEmpty then
        (expPart rest2).map (fun ex => (digitsVal intPart : ℚ) * (10 : ℚ) ^ ex)
      else none

/-- Python 2 `float(s)`: strip whitespace, optional sign, numeric body or
`inf`/`infinity`/`nan` (case-insensitive); `none` models `ValueError`. -/
def pyFloat (s : String) : Option PyF :=
  let l := stripEnds isPyWsC s.toList
  let sgn : Int := match l with
    | '-' :: _ => -1
    | _ => 1
  let body := match l with
    | '+' :: r => r
    | '-' :: r => r
    | _ => l
  let low := body.map lowerChar
  if low = "inf".toList ∨ low = "infinity".toList then
    some (if sgn = -1 then PyF.negInf else PyF.posInf)
  else if low = "nan".toList then some PyF.nan
  else (pyFloatCore body).map (fun q => PyF.fin ((sgn : ℚ) * q))

/-- Python `int(s)`: strip whitespace, optional sign, decimal digits only;
`none` models `ValueError`. -/
def pyInt (s : String) : Option Int :=
  let l := stripEnds isPyWsC s.toList
  match l with
  | '+' :: r => if r ≠ [] ∧ r.all isDigitC then some (digitsVal r) else none
  | '-' :: r => if r ≠ [] ∧ r.all isDigitC then some (-(digitsVal r : Int)) else none
  | _ => if l ≠ [] ∧ l.all isDigitC then some (digitsVal l) else none

/-- ASCII bytes of a string (all header text in scope is ASCII). -/
def strToBytes (s : String) : List Nat := s.toList.map Char.toNat

/-- Whitespace bytes stripped by Python `str.strip()` on a byte string. -/
def isWsB (b : Nat) : Bool :=
  b = 32 || b = 9 || b = 10 || b = 13 || b = 11 || b = 12

/-- Strip whitespace bytes from both ends of a byte line. -/
def stripB (l : List Nat) : List Nat := stripEnds isWsB l

/-- True when every byte is ASCII, so Python 2 `str.decode()` succeeds. -/
def asciiB (l : List Nat) : Bool := l.all (fun b => b < 128)

/-- Whether `tag` occurs at the head of `l`. -/
def beginsWith : List Nat → List Nat → Bool
  | [], _ => true
  | _ :: _, [] => false
  | a :: as, b :: bs => a = b && beginsWith as bs

/-- Whether `tag` occurs contiguously anywhere in `l` (Python `tag in s`). -/
def containsSeq (tag : List Nat) : List Nat → Bool
  | [] => tag.isEmpty
  | b :: rest => beginsWith tag (b :: rest) || containsSeq tag rest

/-- Python 2 `str.decode()` (ASCII codec): fails on any byte ≥ 128. -/
def decodeAscii (bs : List Nat) : Except PyErr String :=
  if asciiB bs then .ok (String.mk (bs.map Char.ofNat)) else .error .unicodeDecodeError

/--
Worker for `NanonisFile.start_byte`: reads the stream line by line
(`f.readline()` keeps the terminating newline; a final unterminated line is
still yielded once).  For each line the source evaluates
`tag in line.strip().decode()`: decoding the stripped line fails with
`UnicodeDecodeError` on non-ASCII bytes; a match returns `f.tell()`, the
position just after the line; exhaustion raises `FileHeaderNotFoundError`.
`cur` is the current line so far (newline excluded), `pos` the stream
position just after the bytes consumed so far.
-/
def sbGo (tag : List Nat) : List Nat → List Nat → Nat → Except PyErr Nat
  | [], cur, pos =>
      if cur.isEmpty then .error .fileHeaderNotFoundError
      else if ¬ asciiB (stripB cur) then .error .unicodeDecodeError
      else if containsSeq tag (stripB cur) then .ok pos
      else .error .fileHeaderNotFoundError
  | b :: rest, cur, pos =>
      if b = 10 then
        if ¬ asciiB (stripB cur) then .error .unicodeDecodeError
        else if containsSeq tag (stripB cur) then .ok (pos + 1)
        else sbGo tag rest [] (pos + 1)
      else sbGo tag rest (cur ++ [b]) (pos + 1)

/-- `NanonisFile.start_byte`: position of the first byte after the line whose
stripped content contains the end tag. -/
def startByte (tag : List Nat) (bs : List Nat) : Except PyErr Nat :=
  sbGo tag bs [] 0

/-- The bodies (newline excluded) of the lines `f.readline()` would yield. -/
def pyLineBodiesGo : List Nat → List Nat → List (List Nat)
  | [], cur => if cur.isEmpty then [] else [cur]
  | b :: rest, cur =>
      if b = 10 then cur :: pyLineBodiesGo rest []
      else pyLineBodiesGo rest (cur ++ [b])

def pyLineBodies (bs : List Nat) : List (List Nat) := pyLineBodiesGo bs []

/-- Value of an IEEE-754 binary32 word (big-endian bit pattern as a `Nat`). -/
def f32OfWord (w : Nat) : PyF :=
  let s : Nat := w / 2 ^ 31 % 2
  let e : Nat := w / 2 ^ 23 % 2 ^ 8
  let m : Nat := w % 2 ^ 23
  let sgn : ℚ := if s = 1 then -1 else 1
  if e = 255 then
    if m = 0 then (if s = 1 then PyF.negInf else PyF.posInf) else PyF.nan
  else if e = 0 then
    PyF.fin (sgn * ((m : ℚ) / ((2 : ℚ) ^ (23 : ℕ) * (2 : ℚ) ^ (126 : ℕ))))
  else if 127 ≤ e then
    PyF.fin (sgn * (((2 ^ 23 + m : ℕ) : ℚ) * (2 : ℚ) ^ (e - 127) / (2 : ℚ) ^ (23 : ℕ)))
  else
    PyF.fin (sgn * (((2 ^ 23 + m : ℕ) : ℚ) / ((2 : ℚ) ^ (23 : ℕ) * (2 : ℚ) ^ (127 - e))))

/-- `np.fromfile(f, dtype=">f4")`: consume the bytes as big-endian 4-byte
floats; trailing bytes that do not fill a whole item are dropped. -/
def bytesToF32s : List Nat → List PyF
  | b0 :: b1 :: b2 :: b3 :: rest =>
      f32OfWord (((b0 * 256 + b1) * 256 + b2) * 256 + b3) :: bytesToF32s rest
  | _ => []

/--
Count used to delimit a table section (`_parse_sxm_header`, inner `j` loop):
starting after the marker line, stop at the first line beginning with a colon;
a line that is empty raises `IndexError` (the source indexes `entry[0]`);
otherwise count the lines whose first character is a tab.  The source's
`count` is `1 +` this value.
-/
def countTabRows : List String → Except PyErr Nat
  | [] => .ok 0
  | e :: rest =>
      if startsWithChar ':' e then .ok 0
      else
        match e.toList with
        | [] => .error .indexError
        | c :: _ => do
            let n ← countTabRows rest
            .ok (if c = '\t' then n + 1 else n)

/-- Length of the shortest row, as Python `zip(*values)` truncates to. -/
def minLen (vs : List (List String)) : Nat :=
  match vs with
  | [] => 0
  | [r] => r.length
  | r :: rest => min r.length (minLen rest)

/-- Python `zip(*values)`: transpose, truncated to the shortest row; column
`k` holds row cells at index `k` (the default is never reached). -/
def zipStar (vs : List (List String)) : List (List String) :=
  (List.range (minLen vs)).map (fun k => vs.map (fun row => row.getD k ""))

/-- Python `dict(zip(keys, cols))`: pair up to the shorter list, later
duplicate keys overwriting earlier ones. -/
def dictZip (keys : List String) (cols : List (List String)) :
    List (String × List String) :=
  (keys.zip cols).foldl (fun acc kv => dinsert acc kv.1 kv.2) []

/--
`_parse_scan_header_table`: strip leading/trailing tabs from each row, split
each on tabs; the first row gives column names (`IndexError` when there is no
row at all), the rest are data rows, combined by `dict(zip(keys, zip(*values)))`.
-/
def parseScanHeaderTable (tableList : List String) :
    Except PyErr (List (String × List String)) :=
  let rows := tableList.map (fun r => pySplitOn '\t' (pyStripChar '\t' r))
  match rows with
  | [] => .error .indexError
  | keys :: values => .ok (dictZip keys (zipStar values))

/-- Python `header_raw.split('\n')[:-3]`. -/
def headerEntries (raw : String) : List String :=
  (pySplitOn '\n' raw).dropLast.dropLast.dropLast

/--
The section-extraction loop of `_parse_sxm_header`: every entry is visited in
turn; the exact markers `:DATA_INFO:` and `:Z-CONTROLLER:` start a table
section (delimited by `countTabRows`, sliced contiguously); any other entry
beginning with a colon is a scalar section whose value is the next entry,
stripped (`IndexError` when there is none).  Lines that are neither are
skipped (this revisits table rows harmlessly, as the Python `for` loop does).
-/
def extractGo : List String → Dict → Except PyErr Dict
  | [], acc => .ok acc
  | e :: rest, acc =>
      if e = ":DATA_INFO:" ∨ e = ":Z-CONTROLLER:" then do
        let n ← countTabRows rest
        let tbl ← parseScanHeaderTable (rest.take n)
        extractGo rest (dinsert acc (pyLower (pyStripChar ':' e)) (.table tbl))
      else if startsWithChar ':' e then
        match rest with
        | [] => .error .indexError
        | nxt :: _ => extractGo rest (dinsert acc (pyLower (pyStripChar ':' e)) (.scalar (pyStrip nxt)))
      else extractGo rest acc

/-- Raw-section extraction over the trimmed entry list. -/
def extractSections (raw : String) : Except PyErr Dict :=
  extractGo (headerEntries raw) []

def splitKeys : List String := ["scan_offset", "scan_pixels", "scan_range", "scan_time"]

def floatKeys : List String := ["scan_offset", "scan_range", "scan_time", "bias", "acq_time"]

def intKeys : List String := ["scan_pixels"]

/-- One step of the split pass: `header_dict[key] = header_dict[key].split()`.
A missing key raises `KeyError`; a table value has no `.split` (`AttributeError`);
already-converted values cannot occur here but are mapped to `TypeError`. -/
def splitStep (d : Dict) (k : String) : Except PyErr Dict :=
  match dlookup d k with
  | none => .error (.keyError k)
  | some (.scalar s) => .ok (dinsert d k (.vec (pySplitWs s)))
  | some (.table _) => .error .attributeError
  | some _ => .error .typeError

/-- Elementwise float conversion of `np.asarray(xs, dtype=np.float)`; the
raised `ValueError` carries the offending cell text. -/
def floatVec : List String → Except PyErr (List PyF)
  | [] => .ok []
  | x :: rest =>
      match pyFloat x with
      | none => .error (.floatConvError x)
      | some q => do
          let qs ← floatVec rest
          .ok (q :: qs)

/-- Elementwise int conversion of `np.asarray(xs, dtype=np.int)`. -/
def intVec : List String → Except PyErr (List Int)
  | [] => .ok []
  | x :: rest =>
      match pyInt x with
      | none => .error (.intConvError x)
      | some z => do
          let zs ← intVec rest
          .ok (z :: zs)

/-- One step of the float pass: a list value goes through
`np.asarray(·, dtype=np.float)`, anything else through `np.float(·)`
(a string parses or raises `ValueError`; a dict raises `TypeError`). -/
def floatStep (d : Dict) (k : String) : Except PyErr Dict :=
  match dlookup d k with
  | none => .error (.keyError k)
  | some (.vec xs) => do
      let qs ← floatVec xs
      .ok (dinsert d k (.fvec qs))
  | some (.scalar s) =>
      match pyFloat s with
      | none => .error (.floatConvError s)
      | some q => .ok (dinsert d k (.fscalar q))
  | some _ => .error .typeError

/-- One step of the int pass: `np.asarray(·, dtype=np.int)` on the
already-split string list. -/
def intStep (d : Dict) (k : String) : Except PyErr Dict :=
  match dlookup d k with
  | none => .error (.keyError k)
  | some (.vec xs) => do
      let zs ← intVec xs
      .ok (dinsert d k (.ivec zs))
  | some _ => .error .typeError

/-- Apply a coercion step to each key in order, stopping at the first error. -/
def passFold (step : Dict → String → Except PyErr Dict) : Dict → List String → Except PyErr Dict
  | d, [] => .ok d
  | d, k :: ks => do passFold step (← step d k) ks

/-- The three post-processing passes of `_parse_sxm_header`, in source order:
split, then float, then int. -/
def postProcess (d : Dict) : Except PyErr Dict := do
  let d1 ← passFold splitStep d splitKeys
  let d2 ← passFold floatStep d1 floatKeys
  passFold intStep d2 intKeys

/-- `_parse_sxm_header`: section extraction then numeric post-processing. -/
def parseSxmHeader (raw : String) : Except PyErr Dict := do
  postProcess (← extractSections raw)

/-- `_end_tags`, keyed by filetype. -/
def endTagOf (ft : String) : String :=
  if ft = "grid" then ":HEADER_END:"
  else if ft = "scan" then "SCANIT_END"
  else "[DATA]"

/-- Python `fname[-3:]`. -/
def last3 (s : String) : String :=
  String.mk (s.toList.drop (s.toList.length - 3))

/-- `_is_valid_file(fname, ext)`: compare the last three characters. -/
def isValidFile (fname ext : String) : Except PyErr Unit :=
  if last3 fname = ext then .ok () else .error .unhandledFileError

/-- `NanonisFile._determine_filetype`. -/
def determineFiletype (fname : String) : Except PyErr String :=
  if last3 fname = "3ds" then .ok "grid"
  else if last3 fname = "sxm" then .ok "scan"
  else if last3 fname = "dat" then .ok "spec"
  else .error .unhandledFileError

/-- The tag whose occurrence ends a scan header. -/
def scanTagB : List Nat := strToBytes "SCANIT_END"

/-- The 2D slice `scandata_shaped[i, d, :, :]` as numpy row indexing gives it:
`nrows` rows of `ncols` consecutive samples starting at flat index `start`. -/
def grid2 (floats : List PyF) (nrows ncols start : Nat) : Grid :=
  (List.range nrows).map (fun r => (floats.drop (start + r * ncols)).take ncols)

/-- The channel-extraction loop of `Scan._load_data`: channel `i` gets the
direction-0 slice as `forward` and the direction-1 slice as `backward`;
`data_dict[chann] = ...` overwrites duplicates. -/
def buildSignals (floats : List PyF) (nx ny : Nat) : List String → Nat → Signals → Signals
  | [], _, acc => acc
  | name :: rest, i, acc =>
      buildSignals floats nx ny rest (i + 1)
        (dinsert acc name
          (grid2 floats nx ny (2 * i * (nx * ny)),
           grid2 floats nx ny ((2 * i + 1) * (nx * ny))))

/--
numpy shape fixing for `reshape(n0, n1, d2, d3)` (numpy's
`_fix_unknown_dimension`): a negative entry marks the unknown dimension —
at most one is allowed, a second raises `ValueError` — and is inferred as
`total / product(known dims)` provided that product is nonzero and divides
`total`; with no unknown entry the product must equal `total`.  Returns the
actual last two dimensions of the reshaped array.
-/
def reshape4 (total n0 n1 : Nat) (d2 d3 : Int) : Except PyErr (Nat × Nat) :=
  if d2 < 0 then
    if d3 < 0 then .error .valueError
    else if n0 * n1 * d3.toNat = 0 ∨ total % (n0 * n1 * d3.toNat) ≠ 0 then .error .valueError
    else .ok (total / (n0 * n1 * d3.toNat), d3.toNat)
  else if d3 < 0 then
    if n0 * n1 * d2.toNat = 0 ∨ total % (n0 * n1 * d2.toNat) ≠ 0 then .error .valueError
    else .ok (d2.toNat, total / (n0 * n1 * d2.toNat))
  else if total = n0 * n1 * (d2.toNat * d3.toNat) then .ok (d2.toNat, d3.toNat)
  else .error .valueError

/--
`Scan._load_data`: unpack `nx, ny = header['scan_pixels']` (exactly two
entries or `ValueError`), read the remaining bytes as big-endian float32,
and `reshape(nchanns, 2, nx, ny)` with numpy's dimension fixing
(`reshape4`): negative pixel counts act as an inferred unknown dimension,
otherwise the number of complete floats must equal the product.  Grids are
sliced with the actual (possibly inferred) dimensions.
-/
def loadData (fileBytes : List Nat) (byteOffset : Nat) (channs : List String)
    (scanPixels : List Int) : Except PyErr Signals := do
  let nxny ← match scanPixels with
    | [a, b] => Except.ok (a, b)
    | _ => Except.error PyErr.valueError
  let floats := bytesToF32s (fileBytes.drop byteOffset)
  let dims ← reshape4 floats.length channs.length 2 nxny.1 nxny.2
  .ok (buildSignals floats dims.1 dims.2 channs 0 [])

/--
The full `Scan(fname)` construction over in-memory file bytes: extension
check, filetype determination, header boundary search, raw-header decode,
header parse, the 4-byte offset skip, then `_load_data` driven by the
`data_info` `Name` column and `scan_pixels`.
-/
def decodeSxm (fname : String) (bs : List Nat) : Except PyErr (Dict × Signals) := do
  let _ ← isValidFile fname "sxm"
  let ft ← determineFiletype fname
  let off ← startByte (strToBytes (endTagOf ft)) bs
  let raw ← decodeAscii (bs.take off)
  let hdr ← parseSxmHeader raw
  let di ← match dlookup hdr "data_info" with
    | some (.table t) => Except.ok t
    | some _ => Except.error PyErr.typeError
    | none => Except.error (PyErr.keyError "data_info")
  let names ← match dlookup di "Name" with
    | some col => Except.ok col
    | none => Except.error (PyErr.keyError "Name")
  let sp ← match dlookup hdr "scan_pixels" with
    | some (.ivec v) => Except.ok v
    | some _ => Except.error PyErr.typeError
    | none => Except.error (PyErr.keyError "scan_pixels")
  let sigs ← loadData bs (off + 4) names sp
  .ok (hdr, sigs)

/-- The payload-start offset the scan decoder actually uses: the boundary
returned by `start_byte` plus the fixed 4-byte skip of `Scan.__init__`. -/
def scanPayloadOffset (bs : List Nat) : Except PyErr Nat :=
  (startByte scanTagB bs).map (· + 4)

/-- Whether an `Except` result is a success. -/
def isOkE {ε α : Type} : Except ε α → Bool
  | .ok _ => true
  | .error _ => false

/-- The `signals` component of a decode result. -/
def signalsOf (r : Except PyErr (Dict × Signals)) : Option Signals :=
  match r with
  | .ok p => some p.2
  | .error _ => none

/-- The parsed-header component of a decode result. -/
def headerOf (r : Except PyErr (Dict × Signals)) : Option Dict :=
  match r with
  | .ok p => some p.1
  | .error _ => none

/-- The `data_info` entry of a successfully parsed header. -/
def dataInfoOf (r : Except PyErr Dict) : Option HVal :=
  match r with
  | .ok d => dlookup d "data_info"
  | .error _ => none

/-- Payload byte count: file length minus the adjusted boundary offset. -/
def payloadLen (bs : List Nat) : Option Nat :=
  match startByte scanTagB bs with
  | .ok n => some (bs.length - (n + 4))
  | .error _ => none

/-- Header text of the minimal synthetic scan file of the end-to-end scenario:
`scan_pixels = "2 2"`, one channel named `Z`. -/
def headerC1 : String :=
  ":ACQ_TIME:\n1\n:SCAN_PIXELS:\n2 2\n:SCAN_TIME:\n1 1\n:SCAN_RANGE:\n1 1\n:SCAN_OFFSET:\n0 0\n:BIAS:\n1\n:DATA_INFO:\n\tChannel\tName\tUnit\tDirection\tCalibration\tOffset\n\t14\tZ\tm\tboth\t1\t0\n\n:SCANIT_END:\n"

/-- Big-endian float32 payload bytes for the values 1..8. -/
def payloadC1 : List Nat :=
  [63, 128, 0, 0, 64, 0, 0, 0, 64, 64, 0, 0, 64, 128, 0, 0,
   64, 160, 0, 0, 64, 192, 0, 0, 64, 224, 0, 0, 65, 0, 0, 0]

/-- The minimal synthetic scan file: header, 4 marker bytes, 32 payload bytes. -/
def fileC1 : List Nat := strToBytes headerC1 ++ [26, 4, 0, 0] ++ payloadC1

/-- Header text of a non-square synthetic scan file with `scan_pixels = "3 2"`. -/
def headerC2 : String :=
  ":ACQ_TIME:\n1\n:SCAN_PIXELS:\n3 2\n:SCAN_TIME:\n1 1\n:SCAN_RANGE:\n1 1\n:SCAN_OFFSET:\n0 0\n:BIAS:\n1\n:DATA_INFO:\n\tChannel\tName\tUnit\tDirection\tCalibration\tOffset\n\t14\tZ\tm\tboth\t1\t0\n\n:SCANIT_END:\n"

/-- Big-endian float32 payload bytes for the values 1..12. -/
def payloadC2 : List Nat :=
  payloadC1 ++ [65, 16, 0, 0, 65, 32, 0, 0, 65, 48, 0, 0, 65, 64, 0, 0]

/-- Synthetic non-square scan file: 1 channel, 2 directions, 3 × 2 pixels. -/
def fileC2 : List Nat := strToBytes headerC2 ++ [26, 4, 0, 0] ++ payloadC2

/-- Header whose `data_info` table has a data row (`0 X m`) with fewer
tab-separated cells than the six-column header row. -/
def raggedRaw : String :=
  ":ACQ_TIME:\n1\n:SCAN_PIXELS:\n2 2\n:SCAN_TIME:\n1 1\n:SCAN_RANGE:\n1 1\n:SCAN_OFFSET:\n0 0\n:BIAS:\n1\n:DATA_INFO:\n\tChannel\tName\tUnit\tDirection\tCalibration\tOffset\n\t14\tZ\tm\tboth\t1\t0\n\t0\tX\tm\n\n:SCANIT_END:\n"

/-- Header identical to `headerC1` except that `bias` holds non-numeric text. -/
def biasBadRaw : String :=
  ":ACQ_TIME:\n1\n:SCAN_PIXELS:\n2 2\n:SCAN_TIME:\n1 1\n:SCAN_RANGE:\n1 1\n:SCAN_OFFSET:\n0 0\n:BIAS:\nabc\n:DATA_INFO:\n\tChannel\tName\tUnit\tDirection\tCalibration\tOffset\n\t14\tZ\tm\tboth\t1\t0\n\n:SCANIT_END:\n"

/-- Header identical to `headerC1` except that `acq_time` holds non-numeric text. -/
def acqBadRaw : String :=
  ":ACQ_TIME:\nabc\n:SCAN_PIXELS:\n2 2\n:SCAN_TIME:\n1 1\n:SCAN_RANGE:\n1 1\n:SCAN_OFFSET:\n0 0\n:BIAS:\n1\n:DATA_INFO:\n\tChannel\tName\tUnit\tDirection\tCalibration\tOffset\n\t14\tZ\tm\tboth\t1\t0\n\n:SCANIT_END:\n"

/-- Header identical to `headerC1` except that `scan_offset` holds three
whitespace-separated components. -/
def offset3Raw : String :=
  ":ACQ_TIME:\n1\n:SCAN_PIXELS:\n2 2\n:SCAN_TIME:\n1 1\n:SCAN_RANGE:\n1 1\n:SCAN_OFFSET:\n1 2 3\n:BIAS:\n1\n:DATA_INFO:\n\tChannel\tName\tUnit\tDirection\tCalibration\tOffset\n\t14\tZ\tm\tboth\t1\t0\n\n:SCANIT_END:\n"

/-- The `scan_offset` entry of a successfully parsed header. -/
def scanOffsetOf (r : Except PyErr Dict) : Option HVal :=
  match r with
  | .ok d => dlookup d "scan_offset"
  | .error _ => none

theorem except_bind_ok {ε α β : Type} {x : Except ε α} {f : α → Except ε β} {b : β} :
    (x >>= f) = .ok b ↔ ∃ a, x = .ok a ∧ f a = .ok b := by
  cases x <;> simp [Bind.bind, Except.bind]

theorem except_bind_error {ε α β : Type} {x : Except ε α} {f : α → Except ε β} {e : ε} :
    (x >>= f) = .error e ↔ x = .error e ∨ ∃ a, x = .ok a ∧ f a = .error e := by
  cases x <;> simp [Bind.bind, Except.bind]

theorem except_bind_error2 {ε α β : Type} {x : Except ε α} {f : α → Except ε β} {e : ε} :
    Except.bind x f = .error e ↔ x = .error e ∨ ∃ a, x = .ok a ∧ f a = .error e := by
  cases x <;> simp [Except.bind]

theorem except_bind_ok2 {ε α β : Type} {x : Except ε α} {f : α → Except ε β} {b : β} :
    Except.bind x f = .ok b ↔ ∃ a, x = .ok a ∧ f a = .ok b := by
  cases x <;> simp [Except.bind]

theorem except_ok_eq_bind {ε α β : Type} {x : Except ε α} {f : α → Except ε β} {b : β} :
    (Except.ok b = Except.bind x f) ↔ ∃ a, x = .ok a ∧ f a = .ok b := by
  cases x <;> simp [Except.bind, eq_comm]

theorem dlookup_dinsert {α : Type} (d : List (String × α)) (k k' : String) (v : α) :
    dlookup (dinsert d k v) k' = if k' = k then some v else dlookup d k' := by
  induction d with
  | nil =>
      by_cases h : k' = k
      · subst h; simp [dinsert, dlookup]
      · have h2 : ¬ (k = k') := fun hh => h hh.symm
        simp [dinsert, dlookup, h, h2]
  | cons p t ih =>
      obtain ⟨k0, v0⟩ := p
      by_cases h0 : k0 = k
      · subst h0
        by_cases h1 : k' = k0
        · subst h1; simp [dinsert, dlookup]
        · have h2 : ¬ (k0 = k') := fun hh => h1 hh.symm
          simp [dinsert, dlookup, h1, h2]
      · by_cases h1 : k' = k0
        · subst h1
          simp [dinsert, dlookup, h0]
        · have h2 : ¬ (k0 = k') := fun hh => h1 hh.symm
          simp [dinsert, dlookup, h0, h1, h2, ih]

theorem mem_dinsert {α : Type} {x : String × α} :
    ∀ {d : List (String × α)} {k : String} {v : α}, x ∈ dinsert d k v → x = (k, v) ∨ x ∈ d := by
  intro d
  induction d with
  | nil => intro k v h; simp [dinsert] at h; simp [h]
  | cons p t ih =>
      intro k v h
      simp only [dinsert] at h
      by_cases h0 : p.1 = k
      · rw [if_pos h0] at h
        rcases List.mem_cons.mp h with h1 | h1
        · exact Or.inl h1
        · exact Or.inr (List.mem_cons_of_mem _ h1)
      · rw [if_neg h0] at h
        rcases List.mem_cons.mp h with h1 | h1
        · exact Or.inr (h1 ▸ List.mem_cons_self _ _)
        · rcases ih h1 with h2 | h2
          · exact Or.inl h2
          · exact Or.inr (List.mem_cons_of_mem _ h2)

theorem dlookup_mem {α : Type} :
    ∀ {d : List (String × α)} {k : String} {v : α}, dlookup d k = some v → (k, v) ∈ d := by
  intro d
  induction d with
  | nil => intro k v h; simp [dlookup] at h
  | cons p t ih =>
      intro k v h
      obtain ⟨k0, v0⟩ := p
      simp only [dlookup] at h
      by_cases h0 : k0 = k
      · rw [if_pos h0] at h
        injection h with h1
        subst h0; subst h1
        exact List.mem_cons_self _ _
      · rw [if_neg h0] at h
        exact List.mem_cons_of_mem _ (ih h)

theorem bytesToF32s_length : ∀ l : List Nat, (bytesToF32s l).length = l.length / 4
  | [] => by simp [bytesToF32s]
  | [a] => by show (List.length ([] : List PyF)) = 1 / 4; rfl
  | [a, b] => by show (List.length ([] : List PyF)) = 2 / 4; rfl
  | [a, b, c] => by show (List.length ([] : List PyF)) = 3 / 4; rfl
  | a :: b :: c :: d :: rest => by
      show (f32OfWord (((a * 256 + b) * 256 + c) * 256 + d) :: bytesToF32s rest).length = (a :: b :: c :: d :: rest).length / 4
      simp only [List.length_cons, bytesToF32s_length rest]
      omega

theorem sbGo_line (tag : List Nat) :
    ∀ (q : List Nat), 10 ∉ q → ∀ (rest cur : List Nat) (pos : Nat),
      sbGo tag (q ++ 10 :: rest) cur pos =
        if ¬ asciiB (stripB (cur ++ q)) then .error .unicodeDecodeError
        else if containsSeq tag (stripB (cur ++ q)) then .ok (pos + q.length + 1)
        else sbGo tag rest [] (pos + q.length + 1) := by
  intro q
  induction q with
  | nil =>
      intro _ rest cur pos
      simp [sbGo]
  | cons c q ih =>
      intro hq rest cur pos
      have hc : c ≠ 10 := fun h => hq (by simp [h])
      have hq' : 10 ∉ q := fun h => hq (List.mem_cons_of_mem _ h)
      show sbGo tag (c :: (q ++ 10 :: rest)) cur pos = _
      rw [sbGo, if_neg hc, ih hq' rest (cur ++ [c]) (pos + 1)]
      have harith : pos + 1 + q.length = pos + (c :: q).length := by
        simp [List.length_cons]; omega
      rw [harith]
      simp [List.append_assoc]

theorem startByte_first_match (tag : List Nat) :
    ∀ (pres : List (List Nat)) (lm rest : List Nat),
      (∀ q ∈ pres, 10 ∉ q ∧ asciiB (stripB q) = true ∧ containsSeq tag (stripB q) = false) →
      10 ∉ lm → asciiB (stripB lm) = true → containsSeq tag (stripB lm) = true →
      ∀ pos, sbGo tag ((pres.map (fun q => q ++ [10])).flatten ++ (lm ++ 10 :: rest)) [] pos =
        .ok (pos + (((pres.map (fun q => q ++ [10])).flatten).length + lm.length + 1)) := by
  intro pres
  induction pres with
  | nil =>
      intro lm rest _ h1 h2 h3 pos
      simp only [List.map_nil, List.flatten_nil, List.nil_append, List.length_nil]
      rw [sbGo_line tag lm h1 rest [] pos]
      rw [if_neg (by simp [h2]), if_pos (by simp [h3])]
      congr 1
      omega
  | cons q ps ih =>
      intro lm rest hp h1 h2 h3 pos
      have hq := hp q (List.mem_cons_self _ _)
      have hps : ∀ r ∈ ps, 10 ∉ r ∧ asciiB (stripB r) = true ∧ containsSeq tag (stripB r) = false :=
        fun r hr => hp r (List.mem_cons_of_mem _ hr)
      have hassoc : ((q :: ps).map (fun r => r ++ [10])).flatten ++ (lm ++ 10 :: rest) =
          q ++ 10 :: ((ps.map (fun r => r ++ [10])).flatten ++ (lm ++ 10 :: rest)) := by
        simp [List.append_assoc]
      rw [hassoc, sbGo_line tag q hq.1 _ [] pos]
      rw [if_neg (by simp [hq.2.1]), if_neg (by simp [hq.2.2])]
      rw [ih lm rest hps h1 h2 h3 (pos + q.length + 1)]
      congr 1
      simp [List.length_append]
      omega

theorem sbGo_nomatch (tag : List Nat) :
    ∀ (bs cur : List Nat) (pos : Nat),
      (∀ q ∈ pyLineBodiesGo bs cur, asciiB (stripB q) = true ∧ containsSeq tag (stripB q) = false) →
      sbGo tag bs cur pos = .error .fileHeaderNotFoundError := by
  intro bs
  induction bs with
  | nil =>
      intro cur pos h
      by_cases hc : cur.isEmpty
      · simp [sbGo, hc]
      · have hcur := h cur (by simp [pyLineBodiesGo, hc])
        simp [sbGo, hc, hcur.1, hcur.2]
  | cons b rest ih =>
      intro cur pos h
      by_cases hb : b = 10
      · subst hb
        have hcur := h cur (by simp [pyLineBodiesGo])
        have h' : ∀ q ∈ pyLineBodiesGo rest [],
            asciiB (stripB q) = true ∧ containsSeq tag (stripB q) = false := by
          intro q hq
          exact h q (by simp [pyLineBodiesGo]; exact Or.inr hq)
        simp [sbGo, hcur.1, hcur.2, ih [] (pos + 1) h']
      · have h' : ∀ q ∈ pyLineBodiesGo rest (cur ++ [b]),
            asciiB (stripB q) = true ∧ containsSeq tag (stripB q) = false := by
          intro q hq
          exact h q (by simp [pyLineBodiesGo, hb]; exact hq)
        simp [sbGo, hb, ih (cur ++ [b]) (pos + 1) h']

/-- Stream used by the C5 witness: two plain lines, the sentinel line, 3 payload bytes. -/
def demoStream : List Nat := strToBytes "hello\nworld\n:SCANIT_END:\n" ++ [0, 0, 0]

/-- Stream with no sentinel line, used by the C6 witness. -/
def demoNoTag : List Nat := strToBytes "no tag here\n"

/--
Claim C5, amended.  For every byte stream that consists of newline-terminated
lines whose stripped bodies are ASCII and do not contain the end tag, followed
by a first line whose stripped body is ASCII and does contain the end tag,
`start_byte` returns the stream position immediately after that line; and for
the scan file type, the payload-start offset used by the body decoder is that
returned position plus the fixed 4-byte skip.  (The amendment adds the ASCII
condition: a non-ASCII byte in an earlier line makes Python 2
`line.strip().decode()` raise `UnicodeDecodeError` before the matching line is
ever reached, so the claim does not hold for arbitrary byte streams.)
-/
theorem C5_boundary_offset :
    (∀ (tag : List Nat) (pres : List (List Nat)) (lm rest : List Nat),
        (∀ q ∈ pres, 10 ∉ q ∧ asciiB (stripB q) = true ∧ containsSeq tag (stripB q) = false) →
        10 ∉ lm → asciiB (stripB lm) = true → containsSeq tag (stripB lm) = true →
        startByte tag ((pres.map (fun q => q ++ [10])).flatten ++ (lm ++ 10 :: rest)) =
          .ok (((pres.map (fun q => q ++ [10])).flatten).length + lm.length + 1)) ∧
    (∀ (bs : List Nat) (n : Nat), startByte scanTagB bs = .ok n →
        scanPayloadOffset bs = .ok (n + 4)) := by
  constructor
  · intro tag pres lm rest hp h1 h2 h3
    have h := startByte_first_match tag pres lm rest hp h1 h2 h3 0
    simpa [startByte] using h
  · intro bs n h
    simp [scanPayloadOffset, h, Except.map]

deriving instance DecidableEq for Except

/--
Counterexample to claim C5 as stated.  The stream consists of the line
`[200]` (a non-ASCII byte) followed by the sentinel line `:SCANIT_END:`;
the claim requires the locator to return the position immediately after the
sentinel line (15), but the source raises `UnicodeDecodeError` while decoding
the stripped first line, before the sentinel line is reached.
-/
theorem C5_counterexample :
    startByte scanTagB ([200, 10] ++ strToBytes ":SCANIT_END:\n") = .error .unicodeDecodeError ∧
    (Except.error PyErr.unicodeDecodeError ≠ (Except.ok 15 : Except PyErr Nat)) := by
  decide

/--
Witness for C5: on a concrete stream of two plain lines followed by the
sentinel line, the locator returns 25 (the offset just after the sentinel
line) and the scan payload offset is 29.
-/
theorem C5_witness :
    startByte scanTagB demoStream = .ok 25 ∧ scanPayloadOffset demoStream = .ok 29 := by
  have h := C5_boundary_offset.1 scanTagB [strToBytes "hello", strToBytes "world"]
      (strToBytes ":SCANIT_END:") [0, 0, 0] (by decide) (by decide) (by decide) (by decide)
  have e1 : (([strToBytes "hello", strToBytes "world"].map (fun q => q ++ [10])).flatten ++
      (strToBytes ":SCANIT_END:" ++ 10 :: [0, 0, 0])) = demoStream := by decide
  have e2 : ((([strToBytes "hello", strToBytes "world"].map (fun q => q ++ [10])).flatten).length +
      (strToBytes ":SCANIT_END:").length + 1) = 25 := by decide
  rw [e1, e2] at h
  exact ⟨h, C5_boundary_offset.2 demoStream 25 h⟩

/--
Claim C6, amended.  For every byte stream all of whose line bodies strip to
ASCII text not containing the end tag, the locator raises
`FileHeaderNotFoundError` when the stream is exhausted (the source class is
named `FileHeaderNotFoundError`; the spec calls it `HeaderNotFoundError`);
and when the locator fails this way the whole scan decode returns that same
error, so no payload bytes are consumed as data.  (The amendment adds the
ASCII condition: a stream containing a non-ASCII line raises
`UnicodeDecodeError` instead — see the counterexample.)
-/
theorem C6_missing_tag :
    (∀ (tag : List Nat) (bs : List Nat),
        (∀ q ∈ pyLineBodies bs, asciiB (stripB q) = true ∧ containsSeq tag (stripB q) = false) →
        startByte tag bs = .error .fileHeaderNotFoundError) ∧
    (∀ (fname : String) (bs : List Nat), last3 fname = "sxm" →
        startByte scanTagB bs = .error .fileHeaderNotFoundError →
        decodeSxm fname bs = .error .fileHeaderNotFoundError) := by
  constructor
  · intro tag bs h
    exact sbGo_nomatch tag bs [] 0 h
  · intro fname bs hf hsb
    have hok : isValidFile fname "sxm" = .ok () := by simp [isValidFile, hf]
    have hd : determineFiletype fname = .ok "scan" := by simp [determineFiletype, hf]
    have hsb2 : startByte (strToBytes "SCANIT_END") bs = .error .fileHeaderNotFoundError := by
      simpa [scanTagB] using hsb
    simp only [decodeSxm, hok, hd, Bind.bind, Except.bind, endTagOf]
    norm_num
    rw [if_neg (show ¬ ("scan" : String) = "grid" by decide), hsb2]

/--
Counterexample to claim C6 as stated.  The stream `[200]` is exhausted
without any line containing the end tag, so the claim requires
`FileHeaderNotFoundError`; the source instead raises `UnicodeDecodeError`
when `line.strip().decode()` hits the non-ASCII byte.
-/
theorem C6_counterexample :
    startByte scanTagB [200] = .error .unicodeDecodeError ∧
    PyErr.unicodeDecodeError ≠ PyErr.fileHeaderNotFoundError := by
  decide

/-- Witness for C6: a concrete ASCII stream with no sentinel line raises
`FileHeaderNotFoundError`, and the full decode propagates that error. -/
theorem C6_witness :
    startByte scanTagB demoNoTag = .error .fileHeaderNotFoundError ∧
    decodeSxm "test.sxm" demoNoTag = .error .fileHeaderNotFoundError := by
  have h1 := C6_missing_tag.1 scanTagB demoNoTag (by decide)
  exact ⟨h1, C6_missing_tag.2 "test.sxm" demoNoTag (by decide) h1⟩

/--
Claim C1 (confirmed).  Decoding the minimal synthetic scan file — header
declaring `scan_pixels "2 2"` with single channel `Z`, followed by the 4
marker bytes and 32 payload bytes holding the big-endian float32 values
1..4 (forward) and 5..8 (backward) — yields for channel `Z` the forward
grid `[[1,2],[3,4]]` and the backward grid `[[5,6],[7,8]]`.
-/
theorem C1_end_to_end :
    signalsOf (decodeSxm "test.sxm" fileC1) =
      some [("Z", ([[PyF.fin 1, PyF.fin 2], [PyF.fin 3, PyF.fin 4]],
                   [[PyF.fin 5, PyF.fin 6], [PyF.fin 7, PyF.fin 8]]))] := by
  with_unfolding_all rfl

theorem grid2_length (floats : List PyF) (nrows ncols start : Nat) :
    (grid2 floats nrows ncols start).length = nrows := by
  simp [grid2]

theorem grid2_row_length (floats : List PyF) (nrows ncols start : Nat)
    (h : start + nrows * ncols ≤ floats.length) :
    ∀ row ∈ grid2 floats nrows ncols start, row.length = ncols := by
  intro row hrow
  simp only [grid2, List.mem_map, List.mem_range] at hrow
  obtain ⟨r, hr, rfl⟩ := hrow
  have h1 : (r + 1) * ncols ≤ nrows * ncols := Nat.mul_le_mul_right _ hr
  have h2 : start + r * ncols + ncols ≤ floats.length := by
    have : (r + 1) * ncols = r * ncols + ncols := by ring
    omega
  simp [List.length_take, List.length_drop]
  omega

theorem buildSignals_mem (floats : List PyF) (nx ny : Nat) :
    ∀ (names : List String) (i : Nat) (acc : Signals) (x : String × (Grid × Grid)),
      x ∈ buildSignals floats nx ny names i acc →
      x ∈ acc ∨ ∃ j, j < names.length ∧
        x.2.1 = grid2 floats nx ny (2 * (i + j) * (nx * ny)) ∧
        x.2.2 = grid2 floats nx ny ((2 * (i + j) + 1) * (nx * ny)) := by
  intro names
  induction names with
  | nil => intro i acc x h; exact Or.inl h
  | cons name rest ih =>
      intro i acc x h
      rcases ih (i + 1) _ x h with h1 | h1
      · rcases mem_dinsert h1 with h2 | h2
        · refine Or.inr ⟨0, by simp, ?_, ?_⟩
          · simp [h2]
          · simp [h2]
        · exact Or.inl h2
      · obtain ⟨j, hj, hfwd, hbwd⟩ := h1
        have he : i + 1 + j = i + (j + 1) := by omega
        refine Or.inr ⟨j + 1, by simpa using Nat.succ_lt_succ hj, ?_, ?_⟩
        · rw [hfwd, he]
        · rw [hbwd, he]

theorem reshape4_ok {total n0 n1 : Nat} {d2 d3 : Int} {dx dy : Nat}
    (h : reshape4 total n0 n1 d2 d3 = .ok (dx, dy)) :
    total = n0 * n1 * (dx * dy) ∧ (0 ≤ d2 → 0 ≤ d3 → dx = d2.toNat ∧ dy = d3.toNat) := by
  by_cases h2 : d2 < 0
  · by_cases h3 : d3 < 0
    · simp only [reshape4] at h
      rw [if_pos h2, if_pos h3] at h
      exact absurd h (by simp)
    · by_cases hk : n0 * n1 * d3.toNat = 0 ∨ total % (n0 * n1 * d3.toNat) ≠ 0
      · simp only [reshape4] at h
        rw [if_pos h2, if_neg h3, if_pos hk] at h
        exact absurd h (by simp)
      · simp only [reshape4] at h
        rw [if_pos h2, if_neg h3, if_neg hk] at h
        simp only [Except.ok.injEq, Prod.mk.injEq] at h
        push_neg at hk
        obtain ⟨hdx, hdy⟩ := h
        subst hdx; subst hdy
        refine ⟨?_, fun hge _ => absurd h2 (by omega)⟩
        have hdvd : (n0 * n1 * d3.toNat) ∣ total := Nat.dvd_of_mod_eq_zero hk.2
        calc total = total / (n0 * n1 * d3.toNat) * (n0 * n1 * d3.toNat) :=
              (Nat.div_mul_cancel hdvd).symm
          _ = n0 * n1 * (total / (n0 * n1 * d3.toNat) * d3.toNat) := by ring
  · by_cases h3 : d3 < 0
    · by_cases hk : n0 * n1 * d2.toNat = 0 ∨ total % (n0 * n1 * d2.toNat) ≠ 0
      · simp only [reshape4] at h
        rw [if_neg h2, if_pos h3, if_pos hk] at h
        exact absurd h (by simp)
      · simp only [reshape4] at h
        rw [if_neg h2, if_pos h3, if_neg hk] at h
        simp only [Except.ok.injEq, Prod.mk.injEq] at h
        push_neg at hk
        obtain ⟨hdx, hdy⟩ := h
        subst hdx; subst hdy
        refine ⟨?_, fun _ hge => absurd h3 (by omega)⟩
        have hdvd : (n0 * n1 * d2.toNat) ∣ total := Nat.dvd_of_mod_eq_zero hk.2
        calc total = total / (n0 * n1 * d2.toNat) * (n0 * n1 * d2.toNat) :=
              (Nat.div_mul_cancel hdvd).symm
          _ = n0 * n1 * (d2.toNat * (total / (n0 * n1 * d2.toNat))) := by ring
    · by_cases ht : total = n0 * n1 * (d2.toNat * d3.toNat)
      · simp only [reshape4] at h
        rw [if_neg h2, if_neg h3, if_pos ht] at h
        simp only [Except.ok.injEq, Prod.mk.injEq] at h
        obtain ⟨hdx, hdy⟩ := h
        subst hdx; subst hdy
        exact ⟨ht, fun _ _ => ⟨rfl, rfl⟩⟩
      · simp only [reshape4] at h
        rw [if_neg h2, if_neg h3, if_neg ht] at h
        exact absurd h (by simp)

theorem reshape4_error {total n0 n1 : Nat} {d2 d3 : Int} {e : PyErr}
    (h : reshape4 total n0 n1 d2 d3 = .error e) : e = PyErr.valueError := by
  simp only [reshape4] at h
  split at h
  · split at h
    · injection h with h1; exact h1.symm
    · split at h
      · injection h with h1; exact h1.symm
      · exact absurd h (by simp)
  · split at h
    · split at h
      · injection h with h1; exact h1.symm
      · exact absurd h (by simp)
    · split at h
      · exact absurd h (by simp)
      · injection h with h1; exact h1.symm

theorem loadData_ok_inv {fileBytes : List Nat} {byteOffset : Nat} {channs : List String}
    {scanPixels : List Int} {sigs : Signals}
    (h : loadData fileBytes byteOffset channs scanPixels = .ok sigs) :
    ∃ (nx ny : Int) (dx dy : Nat), scanPixels = [nx, ny] ∧
      reshape4 (bytesToF32s (fileBytes.drop byteOffset)).length channs.length 2 nx ny =
        .ok (dx, dy) ∧
      sigs = buildSignals (bytesToF32s (fileBytes.drop byteOffset)) dx dy channs 0 [] := by
  match hsp : scanPixels with
  | [] => simp [loadData, hsp, Bind.bind, Except.bind] at h
  | [a] => simp [loadData, hsp, Bind.bind, Except.bind] at h
  | a :: b :: c :: rest => simp [loadData, hsp, Bind.bind, Except.bind] at h
  | [a, b] =>
      simp only [loadData, Bind.bind, Except.bind] at h
      cases hr : reshape4 (bytesToF32s (fileBytes.drop byteOffset)).length channs.length 2 a b with
      | error e => simp [hr] at h
      | ok dims =>
          simp only [hr] at h
          refine ⟨a, b, dims.1, dims.2, rfl, ?_, ?_⟩
          · rw [hr]
          · injection h with h1
            exact h1.symm

theorem decodeSxm_ok_inv {fname : String} {bs : List Nat} {hdr : Dict} {sigs : Signals}
    (h : decodeSxm fname bs = .ok (hdr, sigs)) :
    ∃ (n : Nat) (raw : String) (t : List (String × List String))
      (names : List String) (sp : List Int),
      startByte scanTagB bs = .ok n ∧
      decodeAscii (bs.take n) = .ok raw ∧
      parseSxmHeader raw = .ok hdr ∧
      dlookup hdr "data_info" = some (.table t) ∧
      dlookup t "Name" = some names ∧
      dlookup hdr "scan_pixels" = some (.ivec sp) ∧
      loadData bs (n + 4) names sp = .ok sigs := by
  have hlast : last3 fname = "sxm" := by
    by_contra hl
    simp [decodeSxm, isValidFile, hl, Bind.bind, Except.bind] at h
  have hv : isValidFile fname "sxm" = .ok () := by simp [isValidFile, hlast]
  have hft : determineFiletype fname = .ok "scan" := by simp [determineFiletype, hlast]
  simp only [decodeSxm, Bind.bind, Except.bind, hv, hft] at h
  rw [show endTagOf "scan" = "SCANIT_END" by decide] at h
  rw [show strToBytes "SCANIT_END" = scanTagB from rfl] at h
  cases hsb : startByte scanTagB bs with
  | error e => simp [hsb] at h
  | ok n =>
  simp only [hsb] at h
  cases hda : decodeAscii (bs.take n) with
  | error e => simp [hda] at h
  | ok raw =>
  simp only [hda] at h
  cases hph : parseSxmHeader raw with
  | error e => simp [hph] at h
  | ok hdr2 =>
  simp only [hph] at h
  cases hdi : dlookup hdr2 "data_info" with
  | none => simp [hdi] at h
  | some v =>
  cases v with
  | scalar s => simp [hdi] at h
  | vec xs => simp [hdi] at h
  | fscalar x => simp [hdi] at h
  | fvec xs => simp [hdi] at h
  | ivec xs => simp [hdi] at h
  | table t =>
  simp only [hdi] at h
  cases hnm : dlookup t "Name" with
  | none => simp [hnm] at h
  | some names =>
  simp only [hnm] at h
  cases hsp : dlookup hdr2 "scan_pixels" with
  | none => simp [hsp] at h
  | some v2 =>
  cases v2 with
  | scalar s => simp [hsp] at h
  | vec xs => simp [hsp] at h
  | fscalar x => simp [hsp] at h
  | fvec xs => simp [hsp] at h
  | table t2 => simp [hsp] at h
  | ivec sp =>
  simp only [hsp] at h
  cases hld : loadData bs (n + 4) names sp with
  | error e => simp [hld] at h
  | ok sigs2 =>
  simp only [hld] at h
  obtain ⟨h1, h2⟩ : hdr2 = hdr ∧ sigs2 = sigs := by
    constructor <;> [exact congrArg Prod.fst (Except.ok.inj h); exact congrArg Prod.snd (Except.ok.inj h)]
  subst h1; subst h2
  exact ⟨n, raw, t, names, sp, rfl, hda, hph, hdi, hnm, hsp, hld⟩

/-- The parsed header of the minimal synthetic file `fileC1`. -/
def hdrC1 : Dict :=
  [("acq_time", .fscalar (.fin 1)),
   ("scan_pixels", .ivec [2, 2]),
   ("scan_time", .fvec [.fin 1, .fin 1]),
   ("scan_range", .fvec [.fin 1, .fin 1]),
   ("scan_offset", .fvec [.fin 0, .fin 0]),
   ("bias", .fscalar (.fin 1)),
   ("data_info", .table [("Channel", ["14"]), ("Name", ["Z"]), ("Unit", ["m"]),
                         ("Direction", ["both"]), ("Calibration", ["1"]), ("Offset", ["0"])])]

/-- The decoded signals of the minimal synthetic file `fileC1`. -/
def sigsC1 : Signals :=
  [("Z", ([[.fin 1, .fin 2], [.fin 3, .fin 4]], [[.fin 5, .fin 6], [.fin 7, .fin 8]]))]

/--
Claim C2, amended.  For every scan file that decodes successfully, every
channel's forward and backward grids have `dx` rows each of length `dy`,
where `(dx, dy)` are the actual last two dimensions of the source's
`reshape(nchanns, 2, nx, ny)` with `nx, ny = scan_pixels`.  Whenever both
`scan_pixels` entries are nonnegative (every real header) `dx = scan_pixels[0]`
and `dy = scan_pixels[1]` — the row count tracks `scan_pixels[0]`, not
`scan_pixels[1]` as the claim states; they coincide only for square scans
(see the counterexample).  A negative `scan_pixels` entry acts as numpy's
unknown dimension and is inferred from the payload size.
-/
theorem C2_grid_shape :
    ∀ (fname : String) (bs : List Nat) (hdr : Dict) (sigs : Signals),
      decodeSxm fname bs = .ok (hdr, sigs) →
      ∃ (nx ny : Int) (dx dy : Nat),
        dlookup hdr "scan_pixels" = some (.ivec [nx, ny]) ∧
        (0 ≤ nx → 0 ≤ ny → dx = nx.toNat ∧ dy = ny.toNat) ∧
        ∀ x ∈ sigs, x.2.1.length = dx ∧ x.2.2.length = dx ∧
          (∀ row ∈ x.2.1, row.length = dy) ∧ (∀ row ∈ x.2.2, row.length = dy) := by
  intro fname bs hdr sigs h
  obtain ⟨n, raw, t, names, sp, hsb, hda, hph, hdi, hnm, hsp, hld⟩ := decodeSxm_ok_inv h
  obtain ⟨nx, ny, dx, dy, hsp2, hr, hsigs⟩ := loadData_ok_inv hld
  subst hsp2
  have htotal := (reshape4_ok hr).1
  refine ⟨nx, ny, dx, dy, hsp, (reshape4_ok hr).2, ?_⟩
  intro x hx
  rw [hsigs] at hx
  rcases buildSignals_mem _ _ _ names 0 [] x hx with h1 | h1
  · simp at h1
  · obtain ⟨j, hj, hfwd, hbwd⟩ := h1
    have hbound1 : 2 * (0 + j) * (dx * dy) + dx * dy ≤
        (bytesToF32s (bs.drop (n + 4))).length := by
      rw [htotal]
      have hle : 2 * (0 + j) + 1 ≤ 2 * names.length := by omega
      calc 2 * (0 + j) * (dx * dy) + dx * dy
          = (2 * (0 + j) + 1) * (dx * dy) := by ring
        _ ≤ 2 * names.length * (dx * dy) := Nat.mul_le_mul_right _ hle
        _ = names.length * 2 * (dx * dy) := by ring
    have hbound2 : (2 * (0 + j) + 1) * (dx * dy) + dx * dy ≤
        (bytesToF32s (bs.drop (n + 4))).length := by
      rw [htotal]
      have hle : 2 * (0 + j) + 2 ≤ 2 * names.length := by omega
      calc (2 * (0 + j) + 1) * (dx * dy) + dx * dy
          = (2 * (0 + j) + 2) * (dx * dy) := by ring
        _ ≤ 2 * names.length * (dx * dy) := Nat.mul_le_mul_right _ hle
        _ = names.length * 2 * (dx * dy) := by ring
    refine ⟨?_, ?_, ?_, ?_⟩
    · rw [hfwd, grid2_length]
    · rw [hbwd, grid2_length]
    · rw [hfwd]; exact grid2_row_length _ _ _ _ hbound1
    · rw [hbwd]; exact grid2_row_length _ _ _ _ hbound2

/-- Forward grid decoded from `fileC2` (3 rows of 2 columns). -/
def fwdC2 : Grid := [[PyF.fin 1, PyF.fin 2], [PyF.fin 3, PyF.fin 4], [PyF.fin 5, PyF.fin 6]]

/-- Backward grid decoded from `fileC2`. -/
def bwdC2 : Grid := [[PyF.fin 7, PyF.fin 8], [PyF.fin 9, PyF.fin 10], [PyF.fin 11, PyF.fin 12]]

/--
Counterexample to claim C2 as stated.  The synthetic file `fileC2` declares
`scan_pixels = [3, 2]` and decodes successfully; the claim requires each grid
to have `scan_pixels[1] = 2` rows, but the decoded forward grid has 3 rows.
-/
theorem C2_counterexample :
    (headerOf (decodeSxm "t.sxm" fileC2)).bind (fun h => dlookup h "scan_pixels") =
      some (HVal.ivec [3, 2]) ∧
    signalsOf (decodeSxm "t.sxm" fileC2) = some [("Z", (fwdC2, bwdC2))] ∧
    fwdC2.length = 3 ∧ ¬ (fwdC2.length = 2) := by
  exact ⟨by with_unfolding_all rfl, by with_unfolding_all rfl, by decide, by decide⟩

/-- Witness for C2: the shape property instantiated at the concrete file `fileC1`. -/
theorem C2_witness :
    ∃ (nx ny : Int) (dx dy : Nat),
      dlookup hdrC1 "scan_pixels" = some (.ivec [nx, ny]) ∧
      (0 ≤ nx → 0 ≤ ny → dx = nx.toNat ∧ dy = ny.toNat) ∧
      ∀ x ∈ sigsC1, x.2.1.length = dx ∧ x.2.2.length = dx ∧
        (∀ row ∈ x.2.1, row.length = dy) ∧ (∀ row ∈ x.2.2, row.length = dy) :=
  C2_grid_shape "test.sxm" fileC1 hdrC1 sigsC1 (by with_unfolding_all rfl)

/--
Claim C4, amended.  A successful decode forces the number of complete
4-byte big-endian floats in the payload — `payload_bytes / 4` — to equal
`channels × 2 × dx × dy` for the actual reshape dimensions `(dx, dy)`, which
equal `(scan_pixels[0], scan_pixels[1])` whenever both entries are
nonnegative (every real header; a negative entry is numpy's inferred
unknown dimension).  Whenever the complete-float count does not fit the
shape — in particular for a valid file truncated by one byte (second
conjunct) — the decode fails with the reshape `ValueError` (the spec's
`BodyShapeError`).  The amendment: 1–3 trailing bytes that do not fill a
whole float are silently dropped by `np.fromfile`, so a payload whose byte
count does not divide evenly can still decode successfully (see the
counterexample); only the complete-float count matters.
-/
theorem C4_payload_shape :
    (∀ (fname : String) (bs : List Nat) (hdr : Dict) (sigs : Signals),
        decodeSxm fname bs = .ok (hdr, sigs) →
        ∃ (n : Nat) (t : List (String × List String)) (names : List String)
          (nx ny : Int) (dx dy : Nat),
          startByte scanTagB bs = .ok n ∧
          dlookup hdr "data_info" = some (.table t) ∧
          dlookup t "Name" = some names ∧
          dlookup hdr "scan_pixels" = some (.ivec [nx, ny]) ∧
          (bs.drop (n + 4)).length / 4 = names.length * 2 * (dx * dy) ∧
          (0 ≤ nx → 0 ≤ ny → dx = nx.toNat ∧ dy = ny.toNat)) ∧
    decodeSxm "test.sxm" fileC1.dropLast = .error .valueError := by
  constructor
  · intro fname bs hdr sigs h
    obtain ⟨n, raw, t, names, sp, hsb, hda, hph, hdi, hnm, hsp, hld⟩ := decodeSxm_ok_inv h
    obtain ⟨nx, ny, dx, dy, hsp2, hr, hsigs⟩ := loadData_ok_inv hld
    subst hsp2
    refine ⟨n, t, names, nx, ny, dx, dy, hsb, hdi, hnm, hsp, ?_, (reshape4_ok hr).2⟩
    rw [← bytesToF32s_length]
    exact (reshape4_ok hr).1
  · with_unfolding_all rfl

/--
Counterexample to claim C4 as stated.  Appending two stray bytes to the valid
file `fileC1` gives a 34-byte payload, which does not divide evenly into the
shape `1 × 2 × 2 × 2` of 4-byte floats (32 bytes); the claim requires a fatal
error, but the decode succeeds: `np.fromfile` silently drops the 2 trailing
bytes.
-/
theorem C4_counterexample :
    payloadLen (fileC1 ++ [0, 0]) = some 34 ∧ ¬ (34 % 4 = 0) ∧
    isOkE (decodeSxm "test.sxm" (fileC1 ++ [0, 0])) = true := by
  exact ⟨by with_unfolding_all rfl, by decide, by with_unfolding_all rfl⟩

/-- Witness for C4: the complete-float-count property instantiated at `fileC1`. -/
theorem C4_witness :
    ∃ (n : Nat) (t : List (String × List String)) (names : List String)
      (nx ny : Int) (dx dy : Nat),
      startByte scanTagB fileC1 = .ok n ∧
      dlookup hdrC1 "data_info" = some (.table t) ∧
      dlookup t "Name" = some names ∧
      dlookup hdrC1 "scan_pixels" = some (.ivec [nx, ny]) ∧
      (fileC1.drop (n + 4)).length / 4 = names.length * 2 * (dx * dy) ∧
      (0 ≤ nx → 0 ≤ ny → dx = nx.toNat ∧ dy = ny.toNat) :=
  C4_payload_shape.1 "test.sxm" fileC1 hdrC1 sigsC1 (by with_unfolding_all rfl)

/--
Counterexample to claim C3 as stated.  `raggedRaw` declares a six-column
`data_info` header row, one full data row and one data row with only three
cells; the claim requires header parsing to fail with a parse error naming
`data_info`, but the source parses it successfully and silently truncates:
`zip(*values)` keeps only the three columns covered by the shortest row,
dropping the `Direction`, `Calibration` and `Offset` columns and the
surplus cells of the full row.
-/
theorem C3_counterexample :
    isOkE (parseSxmHeader raggedRaw) = true ∧
    dataInfoOf (parseSxmHeader raggedRaw) =
      some (.table [("Channel", ["14", "0"]), ("Name", ["Z", "X"]), ("Unit", ["m", "m"])]) := by
  exact ⟨by with_unfolding_all rfl, by with_unfolding_all rfl⟩

/--
Claim C3, amended.  The table parser never raises on a table with
inconsistent column counts: for every nonempty row list,
`_parse_scan_header_table` succeeds (`zip` truncation semantics — cells and
column names beyond the shortest data row are silently dropped, as the
counterexample shows concretely).  It fails (`IndexError`) only when the
table has no rows at all.
-/
theorem C3_table_truncates :
    ∀ tableList : List String, tableList ≠ [] →
      isOkE (parseScanHeaderTable tableList) = true := by
  intro tl h
  cases tl with
  | nil => exact absurd rfl h
  | cons a rest => simp [parseScanHeaderTable, isOkE]

/-- Witness for C3: a concrete ragged two-row table parses successfully. -/
theorem C3_witness : isOkE (parseScanHeaderTable ["\ta\tb", "\tc"]) = true :=
  C3_table_truncates _ (by decide)

/--
Counterexample to claim C8 as stated.  Two headers whose only fault is
non-numeric text `abc` in two different numeric fields (`bias` in the first,
`acq_time` in the second) produce the very same error value, carrying only
the offending raw text: the raised error therefore cannot name the field.
(The source raises Python `ValueError: could not convert string to float:
abc` from `np.float`, which has no field component.)
-/
theorem C8_counterexample :
    parseSxmHeader biasBadRaw = .error (.floatConvError "abc") ∧
    parseSxmHeader acqBadRaw = .error (.floatConvError "abc") ∧
    ¬ (biasBadRaw = acqBadRaw) := by
  exact ⟨by with_unfolding_all rfl, by with_unfolding_all rfl, by decide⟩

theorem floatVec_ok_mem : ∀ (xs : List String) (qs : List PyF),
    floatVec xs = .ok qs → ∀ x ∈ xs, (pyFloat x).isSome = true := by
  intro xs
  induction xs with
  | nil => intro qs _ x hx; simp at hx
  | cons y rest ih =>
      intro qs h x hx
      simp only [floatVec] at h
      cases hy : pyFloat y with
      | none => simp [hy] at h
      | some q =>
          simp only [hy, Bind.bind] at h
          rw [except_bind_ok2] at h
          obtain ⟨qs2, h1, _⟩ := h
          rcases List.mem_cons.mp hx with h2 | h2
          · subst h2; simp [hy]
          · exact ih _ h1 x h2

theorem intVec_ok_mem : ∀ (xs : List String) (zs : List Int),
    intVec xs = .ok zs → ∀ x ∈ xs, (pyInt x).isSome = true := by
  intro xs
  induction xs with
  | nil => intro zs _ x hx; simp at hx
  | cons y rest ih =>
      intro zs h x hx
      simp only [intVec] at h
      cases hy : pyInt y with
      | none => simp [hy] at h
      | some z =>
          simp only [hy, Bind.bind] at h
          rw [except_bind_ok2] at h
          obtain ⟨zs2, h1, _⟩ := h
          rcases List.mem_cons.mp hx with h2 | h2
          · subst h2; simp [hy]
          · exact ih _ h1 x h2

theorem floatVec_fail : ∀ (xs : List String), (∃ s ∈ xs, pyFloat s = none) →
    ∃ s, s ∈ xs ∧ pyFloat s = none ∧ floatVec xs = .error (.floatConvError s) := by
  intro xs
  induction xs with
  | nil => intro h; simp at h
  | cons y rest ih =>
      intro h
      cases hy : pyFloat y with
      | none => exact ⟨y, List.mem_cons_self _ _, hy, by simp [floatVec, hy]⟩
      | some q =>
          obtain ⟨s, hs, hsn⟩ := h
          rcases List.mem_cons.mp hs with h2 | h2
          · subst h2; rw [hy] at hsn; exact absurd hsn (by simp)
          · obtain ⟨s2, hs2, hsn2, herr⟩ := ih ⟨s, h2, hsn⟩
            refine ⟨s2, List.mem_cons_of_mem _ hs2, hsn2, ?_⟩
            simp [floatVec, hy, Bind.bind, Except.bind, herr]

theorem intVec_fail : ∀ (xs : List String), (∃ s ∈ xs, pyInt s = none) →
    ∃ s, s ∈ xs ∧ pyInt s = none ∧ intVec xs = .error (.intConvError s) := by
  intro xs
  induction xs with
  | nil => intro h; simp at h
  | cons y rest ih =>
      intro h
      cases hy : pyInt y with
      | none => exact ⟨y, List.mem_cons_self _ _, hy, by simp [intVec, hy]⟩
      | some z =>
          obtain ⟨s, hs, hsn⟩ := h
          rcases List.mem_cons.mp hs with h2 | h2
          · subst h2; rw [hy] at hsn; exact absurd hsn (by simp)
          · obtain ⟨s2, hs2, hsn2, herr⟩ := ih ⟨s, h2, hsn⟩
            refine ⟨s2, List.mem_cons_of_mem _ hs2, hsn2, ?_⟩
            simp [intVec, hy, Bind.bind, Except.bind, herr]

theorem sbGo_error_ne (tag : List Nat) :
    ∀ (bs cur : List Nat) (pos : Nat) (e : PyErr),
      sbGo tag bs cur pos = .error e → e ≠ PyErr.unhandledFileError := by
  intro bs
  induction bs with
  | nil =>
      intro cur pos e h
      simp only [sbGo] at h
      split at h
      · injection h with h1; subst h1; simp
      · split at h
        · injection h with h1; subst h1; simp
        · split at h
          · exact absurd h (by simp)
          · injection h with h1; subst h1; simp
  | cons b rest ih =>
      intro cur pos e h
      simp only [sbGo] at h
      split at h
      · split at h
        · injection h with h1; subst h1; simp
        · split at h
          · exact absurd h (by simp)
          · exact ih [] (pos + 1) e h
      · exact ih (cur ++ [b]) (pos + 1) e h

theorem decodeAscii_error : ∀ (bs : List Nat) (e : PyErr),
    decodeAscii bs = .error e → e = PyErr.unicodeDecodeError := by
  intro bs e h
  simp only [decodeAscii] at h
  split at h
  · exact absurd h (by simp)
  · injection h with h1; exact h1.symm

theorem countTabRows_error : ∀ (l : List String) (e : PyErr),
    countTabRows l = .error e → e = PyErr.indexError := by
  intro l
  induction l with
  | nil => intro e h; simp [countTabRows] at h
  | cons a rest ih =>
      intro e h
      simp only [countTabRows] at h
      split at h
      · exact absurd h (by simp)
      · split at h
        · injection h with h1; exact h1.symm
        · rw [except_bind_error] at h
          rcases h with h | ⟨n, _, h⟩
          · exact ih e h
          · exact absurd h (by simp)

theorem parseScanHeaderTable_error : ∀ (tl : List String) (e : PyErr),
    parseScanHeaderTable tl = .error e → e = PyErr.indexError := by
  intro tl e h
  simp only [parseScanHeaderTable] at h
  split at h
  · injection h with h1; exact h1.symm
  · exact absurd h (by simp)

theorem extractGo_error : ∀ (entries : List String) (acc : Dict) (e : PyErr),
    extractGo entries acc = .error e → e = PyErr.indexError := by
  intro entries
  induction entries with
  | nil => intro acc e h; simp [extractGo] at h
  | cons a rest ih =>
      intro acc e h
      simp only [extractGo] at h
      split at h
      · rw [except_bind_error] at h
        rcases h with h | ⟨n, _, h⟩
        · exact countTabRows_error _ _ h
        · rw [except_bind_error] at h
          rcases h with h | ⟨tbl, _, h⟩
          · exact parseScanHeaderTable_error _ _ h
          · exact ih _ _ h
      · split at h
        · split at h
          · injection h with h1; exact h1.symm
          · exact ih _ _ h
        · exact ih _ _ h

theorem floatVec_error : ∀ (xs : List String) (e : PyErr),
    floatVec xs = .error e → e ≠ PyErr.unhandledFileError := by
  intro xs
  induction xs with
  | nil => intro e h; simp [floatVec] at h
  | cons x rest ih =>
      intro e h
      simp only [floatVec] at h
      split at h
      · injection h with h1; subst h1; simp
      · rw [except_bind_error] at h
        rcases h with h | ⟨qs, _, h⟩
        · exact ih e h
        · exact absurd h (by simp)

theorem intVec_error : ∀ (xs : List String) (e : PyErr),
    intVec xs = .error e → e ≠ PyErr.unhandledFileError := by
  intro xs
  induction xs with
  | nil => intro e h; simp [intVec] at h
  | cons x rest ih =>
      intro e h
      simp only [intVec] at h
      split at h
      · injection h with h1; subst h1; simp
      · rw [except_bind_error] at h
        rcases h with h | ⟨zs, _, h⟩
        · exact ih e h
        · exact absurd h (by simp)

theorem splitStep_error : ∀ (d : Dict) (k : String) (e : PyErr),
    splitStep d k = .error e → e ≠ PyErr.unhandledFileError := by
  intro d k e h
  simp only [splitStep] at h
  split at h <;> first
    | (injection h with h1; subst h1; simp)
    | exact absurd h (by simp)

theorem floatStep_error : ∀ (d : Dict) (k : String) (e : PyErr),
    floatStep d k = .error e → e ≠ PyErr.unhandledFileError := by
  intro d k e h
  simp only [floatStep] at h
  split at h
  · injection h with h1; subst h1; simp
  · rw [except_bind_error] at h
    rcases h with h | ⟨qs, _, h⟩
    · exact floatVec_error _ _ h
    · exact absurd h (by simp)
  · split at h
    · injection h with h1; subst h1; simp
    · exact absurd h (by simp)
  · injection h with h1; subst h1; simp

theorem intStep_error : ∀ (d : Dict) (k : String) (e : PyErr),
    intStep d k = .error e → e ≠ PyErr.unhandledFileError := by
  intro d k e h
  simp only [intStep] at h
  split at h
  · injection h with h1; subst h1; simp
  · rw [except_bind_error] at h
    rcases h with h | ⟨zs, _, h⟩
    · exact intVec_error _ _ h
    · exact absurd h (by simp)
  · injection h with h1; subst h1; simp

theorem passFold_error (step : Dict → String → Except PyErr Dict)
    (hstep : ∀ (d : Dict) (k : String) (e : PyErr), step d k = .error e → e ≠ PyErr.unhandledFileError) :
    ∀ (ks : List String) (d : Dict) (e : PyErr),
      passFold step d ks = .error e → e ≠ PyErr.unhandledFileError := by
  intro ks
  induction ks with
  | nil => intro d e h; simp [passFold] at h
  | cons k rest ih =>
      intro d e h
      simp only [passFold] at h
      rw [except_bind_error] at h
      rcases h with h | ⟨d2, _, h⟩
      · exact hstep _ _ _ h
      · exact ih _ _ h

theorem parseSxmHeader_error : ∀ (raw : String) (e : PyErr),
    parseSxmHeader raw = .error e → e ≠ PyErr.unhandledFileError := by
  intro raw e h
  simp only [parseSxmHeader, Bind.bind] at h
  rw [except_bind_error2] at h
  rcases h with h | ⟨d, _, h⟩
  · rw [extractGo_error _ _ _ h]; simp
  · simp only [postProcess, Bind.bind] at h
    rw [except_bind_error2] at h
    rcases h with h | ⟨d1, _, h⟩
    · exact passFold_error splitStep splitStep_error _ _ _ h
    · rw [except_bind_error2] at h
      rcases h with h | ⟨d2, _, h⟩
      · exact passFold_error floatStep floatStep_error _ _ _ h
      · exact passFold_error intStep intStep_error _ _ _ h

theorem loadData_error : ∀ (fileBytes : List Nat) (off : Nat) (channs : List String)
    (sp : List Int) (e : PyErr), loadData fileBytes off channs sp = .error e →
    e = PyErr.valueError := by
  intro fileBytes off channs sp e h
  match hsp : sp with
  | [] =>
      simp only [loadData, Bind.bind, Except.bind] at h
      injection h with h1; exact h1.symm
  | [a] =>
      simp only [loadData, Bind.bind, Except.bind] at h
      injection h with h1; exact h1.symm
  | a :: b :: c :: rest =>
      simp only [loadData, Bind.bind, Except.bind] at h
      injection h with h1; exact h1.symm
  | [a, b] =>
      simp only [loadData, Bind.bind, Except.bind] at h
      cases hr : reshape4 (bytesToF32s (fileBytes.drop off)).length channs.length 2 a b with
      | error e2 =>
          simp only [hr] at h
          injection h with h1
          rw [← h1]
          exact reshape4_error hr
      | ok dims =>
          simp only [hr] at h
          exact absurd h (by simp)

theorem decodeSxm_error_ne {fname : String} {bs : List Nat} {e : PyErr}
    (hf : last3 fname = "sxm") (h : decodeSxm fname bs = .error e) :
    e ≠ PyErr.unhandledFileError := by
  have hv : isValidFile fname "sxm" = .ok () := by simp [isValidFile, hf]
  have hft : determineFiletype fname = .ok "scan" := by simp [determineFiletype, hf]
  simp only [decodeSxm, Bind.bind, Except.bind, hv, hft] at h
  rw [show endTagOf "scan" = "SCANIT_END" by decide] at h
  cases hsb : startByte (strToBytes "SCANIT_END") bs with
  | error e2 =>
      simp only [hsb] at h
      injection h with h1; subst h1
      exact sbGo_error_ne _ _ _ _ _ hsb
  | ok n =>
  simp only [hsb] at h
  cases hda : decodeAscii (bs.take n) with
  | error e2 =>
      simp only [hda] at h
      injection h with h1; subst h1
      rw [decodeAscii_error _ _ hda]; simp
  | ok raw =>
  simp only [hda] at h
  cases hph : parseSxmHeader raw with
  | error e2 =>
      simp only [hph] at h
      injection h with h1; subst h1
      exact parseSxmHeader_error _ _ hph
  | ok hdr =>
  simp only [hph] at h
  cases hdi : dlookup hdr "data_info" with
  | none => simp only [hdi] at h; injection h with h1; subst h1; simp
  | some v =>
  cases v with
  | scalar s => simp only [hdi] at h; injection h with h1; subst h1; simp
  | vec xs => simp only [hdi] at h; injection h with h1; subst h1; simp
  | fscalar x => simp only [hdi] at h; injection h with h1; subst h1; simp
  | fvec xs => simp only [hdi] at h; injection h with h1; subst h1; simp
  | ivec xs => simp only [hdi] at h; injection h with h1; subst h1; simp
  | table t =>
  simp only [hdi] at h
  cases hnm : dlookup t "Name" with
  | none => simp only [hnm] at h; injection h with h1; subst h1; simp
  | some names =>
  simp only [hnm] at h
  cases hsp : dlookup hdr "scan_pixels" with
  | none => simp only [hsp] at h; injection h with h1; subst h1; simp
  | some v2 =>
  cases v2 with
  | scalar s => simp only [hsp] at h; injection h with h1; subst h1; simp
  | vec xs => simp only [hsp] at h; injection h with h1; subst h1; simp
  | fscalar x => simp only [hsp] at h; injection h with h1; subst h1; simp
  | fvec xs => simp only [hsp] at h; injection h with h1; subst h1; simp
  | table t2 => simp only [hsp] at h; injection h with h1; subst h1; simp
  | ivec sp =>
  simp only [hsp] at h
  cases hld : loadData bs (n + 4) names sp with
  | error e2 =>
      simp only [hld] at h
      injection h with h1; subst h1
      rw [loadData_error _ _ _ _ _ hld]; simp
  | ok sigs =>
      simp only [hld] at h
      exact absurd h (by simp)

/--
Claim C9 (confirmed).  File-type acceptance inspects only the last three
characters of the path: constructing a `Scan` (here, running the decode
pipeline) raises `UnhandledFileError` exactly when the path does not end in
the three characters `sxm`; a path such as `foosxm`, with no dot separator,
passes both `_is_valid_file` and `_determine_filetype` and is treated as a
scan file.
-/
theorem C9_extension_check :
    (∀ (fname : String) (bs : List Nat),
        decodeSxm fname bs = .error .unhandledFileError ↔ ¬ last3 fname = "sxm") ∧
    determineFiletype "foosxm" = .ok "scan" ∧
    isValidFile "foosxm" "sxm" = .ok () := by
  refine ⟨?_, by decide, by decide⟩
  intro fname bs
  constructor
  · intro h hf
    exact decodeSxm_error_ne hf h rfl
  · intro hf
    simp [decodeSxm, isValidFile, hf, Bind.bind, Except.bind]

/-- Section extraction produces only raw values: scalar strings or tables. -/
def rawVal : HVal → Bool
  | .scalar _ => true
  | .table _ => true
  | _ => false

theorem extractGo_raw : ∀ (entries : List String) (acc : Dict) (d : Dict),
    extractGo entries acc = .ok d → (∀ kv ∈ acc, rawVal kv.2 = true) →
    ∀ kv ∈ d, rawVal kv.2 = true := by
  intro entries
  induction entries with
  | nil =>
      intro acc d h hacc
      simp only [extractGo] at h
      injection h with h1
      exact h1 ▸ hacc
  | cons a rest ih =>
      intro acc d h hacc
      simp only [extractGo] at h
      split at h
      · simp only [Bind.bind] at h
        rw [except_bind_ok2] at h
        obtain ⟨n, _, h⟩ := h
        rw [except_bind_ok2] at h
        obtain ⟨tbl, _, h⟩ := h
        refine ih _ _ h ?_
        intro kv hkv
        rcases mem_dinsert hkv with h2 | h2
        · rw [h2]; rfl
        · exact hacc _ h2
      · split at h
        · split at h
          · exact absurd h (by simp)
          · refine ih _ _ h ?_
            intro kv hkv
            rcases mem_dinsert hkv with h2 | h2
            · rw [h2]; rfl
            · exact hacc _ h2
        · exact ih _ _ h hacc

theorem splitStep_ok_iff {d : Dict} {k : String} {d2 : Dict} :
    splitStep d k = .ok d2 ↔
      ∃ s, dlookup d k = some (.scalar s) ∧ d2 = dinsert d k (.vec (pySplitWs s)) := by
  simp only [splitStep]
  cases h : dlookup d k with
  | none => simp
  | some v => cases v <;> simp [eq_comm]

theorem floatStep_ok_iff {d : Dict} {k : String} {d2 : Dict} :
    floatStep d k = .ok d2 ↔
      ((∃ s q, dlookup d k = some (.scalar s) ∧ pyFloat s = some q ∧
          d2 = dinsert d k (.fscalar q)) ∨
       (∃ xs qs, dlookup d k = some (.vec xs) ∧ floatVec xs = .ok qs ∧
          d2 = dinsert d k (.fvec qs))) := by
  simp only [floatStep]
  cases h : dlookup d k with
  | none => simp
  | some v =>
      cases v with
      | scalar s => cases hf : pyFloat s <;> simp [hf, eq_comm]
      | vec xs => simp [Bind.bind, except_bind_ok2, except_ok_eq_bind, eq_comm]
      | fscalar x => simp
      | fvec xs => simp
      | ivec xs => simp
      | table t => simp

theorem intStep_ok_iff {d : Dict} {k : String} {d2 : Dict} :
    intStep d k = .ok d2 ↔
      ∃ xs zs, dlookup d k = some (.vec xs) ∧ intVec xs = .ok zs ∧
        d2 = dinsert d k (.ivec zs) := by
  simp only [intStep]
  cases h : dlookup d k with
  | none => simp
  | some v =>
      cases v with
      | scalar s => simp
      | vec xs => simp [Bind.bind, except_bind_ok2, except_ok_eq_bind, eq_comm]
      | fscalar x => simp
      | fvec xs => simp
      | ivec xs => simp
      | table t => simp

theorem floatVec_length : ∀ (xs : List String) (qs : List PyF),
    floatVec xs = .ok qs → qs.length = xs.length := by
  intro xs
  induction xs with
  | nil =>
      intro qs h
      simp only [floatVec] at h
      injection h with h1
      simp [← h1]
  | cons x rest ih =>
      intro qs h
      simp only [floatVec] at h
      cases hx : pyFloat x with
      | none => simp [hx] at h
      | some q =>
          simp only [hx, Bind.bind] at h
          rw [except_bind_ok2] at h
          obtain ⟨qs2, h1, h2⟩ := h
          injection h2 with h3
          simp [← h3, ih _ h1]

theorem intVec_length : ∀ (xs : List String) (zs : List Int),
    intVec xs = .ok zs → zs.length = xs.length := by
  intro xs
  induction xs with
  | nil =>
      intro zs h
      simp only [intVec] at h
      injection h with h1
      simp [← h1]
  | cons x rest ih =>
      intro zs h
      simp only [intVec] at h
      cases hx : pyInt x with
      | none => simp [hx] at h
      | some z =>
          simp only [hx, Bind.bind] at h
          rw [except_bind_ok2] at h
          obtain ⟨zs2, h1, h2⟩ := h
          injection h2 with h3
          simp [← h3, ih _ h1]

/--
Observable content of the split-then-float-then-int post-processing of
`_parse_sxm_header`, relating the raw section dictionary `d` to the
post-processed dictionary `d3`: each of the four split fields was a raw
scalar, was split on whitespace, and (except `scan_pixels`) float-coerced
componentwise; `bias` and `acq_time` were raw scalars coerced by
`np.float`; `scan_pixels` was additionally int-coerced after the split;
and each resulting vector has exactly one component per whitespace-separated
component of the raw text.
-/
def coercionSpec (d d3 : Dict) : Prop :=
  ∃ so sp sr st sb sa : String,
    dlookup d "scan_offset" = some (.scalar so) ∧
    dlookup d "scan_pixels" = some (.scalar sp) ∧
    dlookup d "scan_range" = some (.scalar sr) ∧
    dlookup d "scan_time" = some (.scalar st) ∧
    dlookup d "bias" = some (.scalar sb) ∧
    dlookup d "acq_time" = some (.scalar sa) ∧
    ∃ (qo qr qt : List PyF) (qb qa : PyF) (zs : List Int),
      floatVec (pySplitWs so) = .ok qo ∧
      floatVec (pySplitWs sr) = .ok qr ∧
      floatVec (pySplitWs st) = .ok qt ∧
      pyFloat sb = some qb ∧
      pyFloat sa = some qa ∧
      intVec (pySplitWs sp) = .ok zs ∧
      dlookup d3 "scan_offset" = some (.fvec qo) ∧
      dlookup d3 "scan_range" = some (.fvec qr) ∧
      dlookup d3 "scan_time" = some (.fvec qt) ∧
      dlookup d3 "bias" = some (.fscalar qb) ∧
      dlookup d3 "acq_time" = some (.fscalar qa) ∧
      dlookup d3 "scan_pixels" = some (.ivec zs) ∧
      qo.length = (pySplitWs so).length ∧
      qr.length = (pySplitWs sr).length ∧
      qt.length = (pySplitWs st).length ∧
      zs.length = (pySplitWs sp).length

theorem postProcess_ok_spec {d d3 : Dict}
    (hraw : ∀ kv ∈ d, rawVal kv.2 = true)
    (h : postProcess d = .ok d3) : coercionSpec d d3 := by
  simp only [postProcess, Bind.bind] at h
  rw [except_bind_ok2] at h
  obtain ⟨d1, hsplit, h⟩ := h
  rw [except_bind_ok2] at h
  obtain ⟨d2, hfloat, hint⟩ := h
  -- split pass
  simp only [splitKeys, passFold, Bind.bind] at hsplit
  rw [except_bind_ok2] at hsplit
  obtain ⟨da, hs1, hsplit⟩ := hsplit
  rw [except_bind_ok2] at hsplit
  obtain ⟨db, hs2, hsplit⟩ := hsplit
  rw [except_bind_ok2] at hsplit
  obtain ⟨dc, hs3, hsplit⟩ := hsplit
  rw [except_bind_ok2] at hsplit
  obtain ⟨dd, hs4, hsplit⟩ := hsplit
  have hddd1 : dd = d1 := by simpa using hsplit
  subst hddd1
  rw [splitStep_ok_iff] at hs1 hs2 hs3 hs4
  obtain ⟨so, hlo, hda⟩ := hs1
  obtain ⟨sp, hlp, hdb⟩ := hs2
  obtain ⟨sr, hlr, hdc⟩ := hs3
  obtain ⟨st, hlt, hd1⟩ := hs4
  simp only [hda, dlookup_dinsert] at hlp
  simp at hlp
  simp only [hdb, hda, dlookup_dinsert] at hlr
  simp at hlr
  simp only [hdc, hdb, hda, dlookup_dinsert] at hlt
  simp at hlt
  -- float pass
  simp only [floatKeys, passFold, Bind.bind] at hfloat
  rw [except_bind_ok2] at hfloat
  obtain ⟨e1, hf1, hfloat⟩ := hfloat
  rw [except_bind_ok2] at hfloat
  obtain ⟨e2, hf2, hfloat⟩ := hfloat
  rw [except_bind_ok2] at hfloat
  obtain ⟨e3, hf3, hfloat⟩ := hfloat
  rw [except_bind_ok2] at hfloat
  obtain ⟨e4, hf4, hfloat⟩ := hfloat
  rw [except_bind_ok2] at hfloat
  obtain ⟨e5, hf5, hfloat⟩ := hfloat
  have he5d2 : e5 = d2 := by simpa using hfloat
  subst he5d2
  rw [floatStep_ok_iff] at hf1 hf2 hf3 hf4 hf5
  -- scan_offset
  have hl1 : dlookup dd "scan_offset" = some (.vec (pySplitWs so)) := by
    simp [hd1, hdc, hdb, hda, dlookup_dinsert]
  rcases hf1 with ⟨s9, q9, hlk, _, _⟩ | ⟨xs, qo, hlk, hqo, he1⟩
  · rw [hl1] at hlk; simp at hlk
  rw [hl1] at hlk
  injection hlk with hlk2
  injection hlk2 with hlk3
  subst hlk3
  -- scan_range
  have hl2 : dlookup e1 "scan_range" = some (.vec (pySplitWs sr)) := by
    simp [he1, hd1, hdc, hdb, hda, dlookup_dinsert]
  rcases hf2 with ⟨s9, q9, hlk, _, _⟩ | ⟨xs, qr, hlk, hqr, he2⟩
  · rw [hl2] at hlk; simp at hlk
  rw [hl2] at hlk
  injection hlk with hlk2
  injection hlk2 with hlk3
  subst hlk3
  -- scan_time
  have hl3 : dlookup e2 "scan_time" = some (.vec (pySplitWs st)) := by
    simp [he2, he1, hd1, hdc, hdb, hda, dlookup_dinsert]
  rcases hf3 with ⟨s9, q9, hlk, _, _⟩ | ⟨xs, qt, hlk, hqt, he3⟩
  · rw [hl3] at hlk; simp at hlk
  rw [hl3] at hlk
  injection hlk with hlk2
  injection hlk2 with hlk3
  subst hlk3
  -- bias
  have hl4 : dlookup e3 "bias" = dlookup d "bias" := by
    simp [he3, he2, he1, hd1, hdc, hdb, hda, dlookup_dinsert]
  rcases hf4 with ⟨sb, qb, hlkb, hqb, he4⟩ | ⟨xs, qs, hlk, _, _⟩
  rotate_left
  · rw [hl4] at hlk
    have := hraw _ (dlookup_mem hlk)
    simp [rawVal] at this
  rw [hl4] at hlkb
  -- acq_time
  have hl5 : dlookup e4 "acq_time" = dlookup d "acq_time" := by
    simp [he4, he3, he2, he1, hd1, hdc, hdb, hda, dlookup_dinsert]
  rcases hf5 with ⟨sa, qa, hlka, hqa, he5⟩ | ⟨xs, qs, hlk, _, _⟩
  rotate_left
  · rw [hl5] at hlk
    have := hraw _ (dlookup_mem hlk)
    simp [rawVal] at this
  rw [hl5] at hlka
  -- int pass
  simp only [intKeys, passFold, Bind.bind] at hint
  rw [except_bind_ok2] at hint
  obtain ⟨f1, hi1, hint⟩ := hint
  have hf1d3 : f1 = d3 := by simpa using hint
  subst hf1d3
  rw [intStep_ok_iff] at hi1
  obtain ⟨xs, zs, hlk, hzs, hd3⟩ := hi1
  have hlpix : dlookup e5 "scan_pixels" = some (.vec (pySplitWs sp)) := by
    simp [he5, he4, he3, he2, he1, hd1, hdc, hdb, hda, dlookup_dinsert]
  rw [hlpix] at hlk
  injection hlk with hlk2
  injection hlk2 with hlk3
  subst hlk3
  refine ⟨so, sp, sr, st, sb, sa, hlo, hlp, hlr, hlt, hlkb, hlka,
    qo, qr, qt, qb, qa, zs, hqo, hqr, hqt, hqb, hqa, hzs,
    ?_, ?_, ?_, ?_, ?_, ?_,
    floatVec_length _ _ hqo, floatVec_length _ _ hqr, floatVec_length _ _ hqt,
    intVec_length _ _ hzs⟩
  · simp [hd3, he5, he4, he3, he2, he1, dlookup_dinsert]
  · simp [hd3, he5, he4, he3, he2, dlookup_dinsert]
  · simp [hd3, he5, he4, he3, dlookup_dinsert]
  · simp [hd3, he5, he4, dlookup_dinsert]
  · simp [hd3, he5, dlookup_dinsert]
  · simp [hd3, dlookup_dinsert]

/--
Claim C8, amended.  For every header in which a numeric field holds
non-numeric text, parsing never succeeds: the first conjunct shows a
successful parse forces every component of every numeric field (the
whitespace-split components of `scan_offset`, `scan_range`, `scan_time`
and `scan_pixels`, and the scalars `bias` and `acq_time`) to coerce, so
such a field is never silently given a default value.  The remaining
conjuncts show the failure that is raised carries the offending raw text —
componentwise float conversion, componentwise int conversion, and the
scalar and vector coercion steps — but not the field name (the
counterexample shows the parse-level error is identical for faults in two
different fields).
-/
theorem C8_coercion_error :
    (∀ (raw : String) (d d3 : Dict), extractSections raw = .ok d →
        parseSxmHeader raw = .ok d3 →
        ∃ so sp sr st sb sa : String,
          dlookup d "scan_offset" = some (.scalar so) ∧
          dlookup d "scan_pixels" = some (.scalar sp) ∧
          dlookup d "scan_range" = some (.scalar sr) ∧
          dlookup d "scan_time" = some (.scalar st) ∧
          dlookup d "bias" = some (.scalar sb) ∧
          dlookup d "acq_time" = some (.scalar sa) ∧
          (∀ c ∈ pySplitWs so, (pyFloat c).isSome = true) ∧
          (∀ c ∈ pySplitWs sr, (pyFloat c).isSome = true) ∧
          (∀ c ∈ pySplitWs st, (pyFloat c).isSome = true) ∧
          (pyFloat sb).isSome = true ∧
          (pyFloat sa).isSome = true ∧
          (∀ c ∈ pySplitWs sp, (pyInt c).isSome = true)) ∧
    (∀ (xs : List String), (∃ s ∈ xs, pyFloat s = none) →
        ∃ s, s ∈ xs ∧ pyFloat s = none ∧ floatVec xs = .error (.floatConvError s)) ∧
    (∀ (xs : List String), (∃ s ∈ xs, pyInt s = none) →
        ∃ s, s ∈ xs ∧ pyInt s = none ∧ intVec xs = .error (.intConvError s)) ∧
    (∀ (d : Dict) (k s : String), dlookup d k = some (.scalar s) → pyFloat s = none →
        floatStep d k = .error (.floatConvError s)) ∧
    (∀ (d : Dict) (k : String) (xs : List String) (e : PyErr),
        dlookup d k = some (.vec xs) → floatVec xs = .error e →
        floatStep d k = .error e) ∧
    (∀ (d : Dict) (k : String) (xs : List String) (e : PyErr),
        dlookup d k = some (.vec xs) → intVec xs = .error e →
        intStep d k = .error e) := by
  refine ⟨?_, floatVec_fail, intVec_fail, ?_, ?_, ?_⟩
  · intro raw d d3 hex h
    simp only [parseSxmHeader, Bind.bind] at h
    rw [except_bind_ok2] at h
    obtain ⟨d0, hd0, hpp⟩ := h
    rw [hex] at hd0
    injection hd0 with he
    subst he
    obtain ⟨so, sp, sr, st, sb, sa, h1, h2, h3, h4, h5, h6,
      qo, qr, qt, qb, qa, zs, hqo, hqr, hqt, hqb, hqa, hzs, _⟩ :=
      postProcess_ok_spec (extractGo_raw _ _ _ hex (by simp)) hpp
    exact ⟨so, sp, sr, st, sb, sa, h1, h2, h3, h4, h5, h6,
      floatVec_ok_mem _ _ hqo, floatVec_ok_mem _ _ hqr, floatVec_ok_mem _ _ hqt,
      by simp [hqb], by simp [hqa], intVec_ok_mem _ _ hzs⟩
  · intro d k s hl hf
    simp [floatStep, hl, hf]
  · intro d k xs e hl he
    simp [floatStep, hl, Bind.bind, Except.bind, he]
  · intro d k xs e hl he
    simp [intStep, hl, Bind.bind, Except.bind, he]

/-- Witness for C8: a vector coercion failure and a scalar coercion failure
at concrete inputs, each carrying the offending raw text `abc`. -/
theorem C8_witness :
    (∃ s, s ∈ ["1", "abc"] ∧ pyFloat s = none ∧
        floatVec ["1", "abc"] = .error (.floatConvError s)) ∧
    floatStep [("bias", HVal.scalar "abc")] "bias" = .error (.floatConvError "abc") := by
  constructor
  · exact C8_coercion_error.2.1 ["1", "abc"] ⟨"abc", by decide, by with_unfolding_all rfl⟩
  · exact C8_coercion_error.2.2.2.1 _ _ _ (by with_unfolding_all rfl)
      (by with_unfolding_all rfl)

/--
Counterexample to claim C7 as stated.  The claim asserts that the four
split fields are split on whitespace "into length-2 vectors" for every
header that parses successfully; the source enforces no length: a header
whose `scan_offset` holds `1 2 3` parses successfully and yields a
length-3 float vector.
-/
theorem C7_counterexample :
    isOkE (parseSxmHeader offset3Raw) = true ∧
    scanOffsetOf (parseSxmHeader offset3Raw) =
      some (.fvec [PyF.fin 1, PyF.fin 2, PyF.fin 3]) ∧
    ([PyF.fin 1, PyF.fin 2, PyF.fin 3] : List PyF).length = 3 ∧
    ¬ (([PyF.fin 1, PyF.fin 2, PyF.fin 3] : List PyF).length = 2) := by
  exact ⟨by with_unfolding_all rfl, by with_unfolding_all rfl, by decide, by decide⟩

/--
Claim C7, amended.  For every header that parses successfully,
post-processing applies in the fixed order split-then-float-then-int:
`scan_offset`, `scan_pixels`, `scan_range` and `scan_time` are split on
whitespace into numeric vectors with exactly one component per
whitespace-separated component of the raw text — length 2 exactly when the
field has two components, as in all observed headers; the source enforces
no fixed length (see the counterexample);
`scan_offset`, `scan_range`, `scan_time`, `bias` and `acq_time` are coerced
to float (vector-wise where split); and `scan_pixels` is additionally
coerced to a vector of integers after the split.
-/
theorem C7_coercion_order :
    ∀ (raw : String) (d3 : Dict), parseSxmHeader raw = .ok d3 →
      ∃ d, extractSections raw = .ok d ∧ coercionSpec d d3 := by
  intro raw d3 h
  simp only [parseSxmHeader, Bind.bind] at h
  rw [except_bind_ok2] at h
  obtain ⟨d, hd, h⟩ := h
  exact ⟨d, hd, postProcess_ok_spec (extractGo_raw _ _ _ hd (by simp)) h⟩

/-- Witness for C7: the coercion specification instantiated at the concrete
header of the minimal synthetic file, whose parse result is `hdrC1`. -/
theorem C7_witness : ∃ d, extractSections headerC1 = .ok d ∧ coercionSpec d hdrC1 :=
  C7_coercion_order headerC1 hdrC1 (by with_unfolding_all rfl)

/--
Claim C10 (confirmed).  Every header that parses successfully has an
`acq_time` section: the float-coercion pass looks `acq_time` up
unconditionally, so a missing section makes the parse fail (`KeyError`).
`acq_time` is therefore a required header field in addition to the
documented required set.
-/
theorem C10_acq_time_required :
    ∀ (raw : String) (d3 : Dict), parseSxmHeader raw = .ok d3 →
      ∃ d, extractSections raw = .ok d ∧ (dlookup d "acq_time").isSome = true := by
  intro raw d3 h
  simp only [parseSxmHeader, Bind.bind] at h
  rw [except_bind_ok2] at h
  obtain ⟨d, hd, h⟩ := h
  obtain ⟨so, sp, sr, st, sb, sa, _, _, _, _, _, hacq, _⟩ :=
    postProcess_ok_spec (extractGo_raw _ _ _ hd (by simp)) h
  exact ⟨d, hd, by simp [hacq]⟩

/-- Witness for C10: instantiated at the concrete header of the minimal
synthetic file. -/
theorem C10_witness :
    ∃ d, extractSections headerC1 = .ok d ∧ (dlookup d "acq_time").isSome = true :=
  C10_acq_time_required headerC1 hdrC1 (by with_unfolding_all rfl)

/-- Witness for C9: a concrete path not ending in `sxm` is rejected with
`UnhandledFileError`. -/
theorem C9_witness : decodeSxm "foo.txt" [] = .error .unhandledFileError :=
  (C9_extension_check.1 "foo.txt" []).mpr (by decide)
